import Mathlib

/-!
Shallow embedding of `src/pudl/analysis/egrid.py` (functions
`calculate_fuel_percentage` and `determine_primary_fuel`).

Modelling conventions:
* A pandas DataFrame of boiler_fuel_eia923 rows is a `List BoilerFuelRecord`.
* Numeric cells that may be NaN/missing are `Option ℚ` (`none` = NaN); exact
  rational arithmetic stands in for floats.
* `pivot_table(index, columns, values)` with its pandas defaults
  (aggfunc = mean, dropna = True, sorted column labels) is `pivot_cell` /
  `pivotKeys` / `pivotCols`: groups with at least one non-NaN value survive,
  a cell is the arithmetic mean of the non-NaN values of its group, column
  labels come out sorted lexicographically.
* The in-place assignment `bf_df['fuel_consumed_mmbtu'] = ...` (line 72)
  mutates the caller's frame, so both functions are embedded with explicit
  state passing: they return the caller-visible table after the call in the
  first component and the computed result in the second.
* The missing `else` branch for an unrecognized `level` makes line 109 read
  the unbound local `fuel_pivot`, which raises `NameError`; fallible code is
  embedded with `Except`, with `EgridError.nameError` for that failure.
* The bookkeeping `total` column of line 109 shares the column namespace
  with the data-dependent fuel columns: a fuel literally coded "total" is
  overwritten by the row sum at line 109 (after contributing to it) and
  deleted at line 123, so its share is never emitted; and a remaining fuel
  column whose code equals one of the pivot's index labels makes
  `reset_index()` at line 124 raise `ValueError`
  (`EgridError.valueError`).
-/

namespace Egrid

/-- One row of the boiler_fuel_eia923 input table (egrid.py docstring,
lines 13-19).  `report_date` is a month-level timestamp encoded as a `Nat`. -/
structure BoilerFuelRecord where
  plant_id_eia : Nat
  boiler_id : String
  report_date : Nat
  fuel_type_code : String
  fuel_consumed_units : Option ℚ
  fuel_mmbtu_per_unit : Option ℚ
deriving Repr, DecidableEq

/-- The caller's row after `calculate_fuel_percentage` has executed line 72:
the frame now carries the extra `fuel_consumed_mmbtu` column. -/
structure BoilerFuelRecordMut extends BoilerFuelRecord where
  fuel_consumed_mmbtu : Option ℚ
deriving Repr, DecidableEq

/-- `fuel_consumed_units * fuel_mmbtu_per_unit` (line 72); NaN propagates. -/
def heatOf (r : BoilerFuelRecord) : Option ℚ :=
  match r.fuel_consumed_units, r.fuel_mmbtu_per_unit with
  | some u, some h => some (u * h)
  | _, _ => none

/-- Row key of a pivot: `report_date`, `plant_id_eia`, and (at boiler
granularity) `boiler_id`. -/
structure Key where
  report_date : Nat
  plant_id_eia : Nat
  boiler_id : Option String
deriving Repr, DecidableEq

/-- Pivot index at boiler granularity (line 86). -/
def boilerKey (r : BoilerFuelRecord) : Key :=
  ⟨r.report_date, r.plant_id_eia, some r.boiler_id⟩

/-- Pivot index at plant granularity (line 104): boiler identity collapsed. -/
def plantKey (r : BoilerFuelRecord) : Key :=
  ⟨r.report_date, r.plant_id_eia, none⟩

/-- The `fuel_type_code` column selector. -/
def fuelCode (r : BoilerFuelRecord) : String := r.fuel_type_code

/-- Errors raised by the reference code.  An unrecognized `level` leaves
`fuel_pivot` unbound at line 109, raising `NameError`; a fuel type code that
equals one of the pivot's index labels makes `reset_index()` at line 124
raise `ValueError` ("cannot insert ..., already exists").  (The
`InvalidRecordError` the spec prescribes does not exist in the code.) -/
inductive EgridError where
  | nameError
  | valueError
deriving Repr, DecidableEq

/-- One row of the share table returned by `calculate_fuel_percentage`:
key columns plus one numeric column per fuel type, as an association list
in pandas column order. -/
structure ShareRow where
  key : Key
  shares : List (String × ℚ)
deriving Repr, DecidableEq

/-- One row returned by `determine_primary_fuel`. -/
structure PrimaryFuelRow where
  key : Key
  primary_fuel : String
deriving Repr, DecidableEq

/-! ### pandas `pivot_table` with its default `aggfunc='mean'` -/

/-- The non-NaN values contributing to the pivot cell at row key `k`,
column `f`. -/
def pivotGroup {β : Type} (rows : List β) (keyOf : β → Key) (colOf : β → String)
    (valOf : β → Option ℚ) (k : Key) (f : String) : List ℚ :=
  rows.filterMap fun x => if keyOf x = k ∧ colOf x = f then valOf x else none

/-- A pivot cell: mean of the non-NaN values of its group, NaN (`none`) when
the group is empty or all-NaN. -/
def pivot_cell {β : Type} (rows : List β) (keyOf : β → Key) (colOf : β → String)
    (valOf : β → Option ℚ) (k : Key) (f : String) : Option ℚ :=
  if pivotGroup rows keyOf colOf valOf k f = [] then none
  else some ((pivotGroup rows keyOf colOf valOf k f).sum /
    (pivotGroup rows keyOf colOf valOf k f).length)

/-- Lexicographic comparison of character lists (executable; agrees with
`List.Lex (· < ·)`, see `lexLtb_iff_lex`). -/
def lexLtb : List Char → List Char → Bool
  | _, [] => false
  | [], _ :: _ => true
  | c :: cs, d :: ds => if c < d then true else if d < c then false else lexLtb cs ds

/-- Executable `≤` on strings (agrees with the lexicographic `≤` of
`String`, see `strle_iff_le`). -/
def strle (a b : String) : Prop := lexLtb b.data a.data = false

instance strle.decidable : DecidableRel strle := fun a b =>
  inferInstanceAs (Decidable (lexLtb b.data a.data = false))

/-- pandas unstacking materializes column labels in ascending lexicographic
order. -/
def sortedFuelCols (cols : List String) : List String :=
  List.insertionSort strle cols

/-- Row keys of the pivot: keys with at least one non-NaN value
(`dropna=True` removes groups that are entirely NaN). -/
def pivotKeys {β : Type} [DecidableEq β] (rows : List β) (keyOf : β → Key)
    (valOf : β → Option ℚ) : List Key :=
  ((rows.map keyOf).dedup).filter fun k =>
    rows.any fun x => decide (keyOf x = k) && (valOf x).isSome

/-- Column labels of the pivot, sorted lexicographically as pandas unstacking
produces them; labels whose every value is NaN are dropped. -/
def pivotCols {β : Type} [DecidableEq β] (rows : List β) (colOf : β → String)
    (valOf : β → Option ℚ) : List String :=
  (sortedFuelCols (rows.map colOf).dedup).filter
    fun f => rows.any fun x => decide (colOf x = f) && (valOf x).isSome

/-! ### lines 108-126: total, fillna, drop zero totals, normalize -/

/-- Line 109: `fuel_pivot.sum(axis=1, numeric_only=True)` — NaN cells are
skipped, which coincides with summing the cells after `fillna(0)`. -/
def rowTotal (cols : List String) (cellk : String → Option ℚ) : ℚ :=
  (cols.map fun f => (cellk f).getD 0).sum

/-- Lines 108-126: add the `total` column, `fillna(0)`, drop rows with
`total == 0`, divide every column by `total`, drop `total`, reset the
index.  Shared by both granularities, exactly as in the source.

The `total` column lives in the same column namespace as the data-dependent
fuel columns: if a fuel is literally coded "total", the assignment of
line 109 overwrites that fuel's column with the row sum (the sum on the
right-hand side still includes the fuel's own values), and line 123 deletes
the column — so a fuel coded "total" contributes to every row's total but
its share is never emitted. -/
def finishPivot (keys : List Key) (cols : List String)
    (cell : Key → String → Option ℚ) : List ShareRow :=
  keys.filterMap fun k =>
    if rowTotal cols (cell k) = 0 then none
    else some ⟨k, (cols.filter fun f => f ≠ "total").map
      fun f => (f, (cell k f).getD 0 / rowTotal cols (cell k))⟩

/-! ### plant granularity: groupby-sum before pivoting (lines 98-99) -/

/-- The groupby key of lines 98-99: `(plant_id_eia, report_date,
fuel_type_code)`. -/
def comboOf (r : BoilerFuelRecord) : Nat × Nat × String :=
  (r.plant_id_eia, r.report_date, r.fuel_type_code)

/-- `groupby(...).sum()` of `fuel_consumed_mmbtu` for one group: NaN values
are skipped and an all-NaN group sums to `0`. -/
def groupHeatSum (bf : List BoilerFuelRecord) (c : Nat × Nat × String) : ℚ :=
  ((bf.filter fun r => decide (comboOf r = c)).filterMap heatOf).sum

/-- One row of `bf_gb` (line 98): a distinct groupby key with its summed
heat content; the sum is never NaN. -/
structure GroupedRow where
  plant_id_eia : Nat
  report_date : Nat
  fuel_type_code : String
  fuel_consumed_mmbtu : ℚ
deriving Repr, DecidableEq

/-- Lines 98-99: the grouped table, one row per distinct groupby key. -/
def plantGroupRows (bf : List BoilerFuelRecord) : List GroupedRow :=
  ((bf.map comboOf).dedup).map fun c => ⟨c.1, c.2.1, c.2.2, groupHeatSum bf c⟩

/-- Pivot index selector for the grouped table (line 104). -/
def groupedKey (g : GroupedRow) : Key := ⟨g.report_date, g.plant_id_eia, none⟩

/-- Pivot column selector for the grouped table (line 105). -/
def groupedCode (g : GroupedRow) : String := g.fuel_type_code

/-- Pivot value selector for the grouped table (line 106); never NaN. -/
def groupedVal (g : GroupedRow) : Option ℚ := some g.fuel_consumed_mmbtu

/-! ### the two pivots, named -/

def boilerPivotKeys (bf : List BoilerFuelRecord) : List Key :=
  pivotKeys bf boilerKey heatOf

def boilerPivotCols (bf : List BoilerFuelRecord) : List String :=
  pivotCols bf fuelCode heatOf

def boilerPivotCell (bf : List BoilerFuelRecord) : Key → String → Option ℚ :=
  pivot_cell bf boilerKey fuelCode heatOf

def plantPivotKeys (bf : List BoilerFuelRecord) : List Key :=
  pivotKeys (plantGroupRows bf) groupedKey groupedVal

def plantPivotCols (bf : List BoilerFuelRecord) : List String :=
  pivotCols (plantGroupRows bf) groupedCode groupedVal

def plantPivotCell (bf : List BoilerFuelRecord) : Key → String → Option ℚ :=
  pivot_cell (plantGroupRows bf) groupedKey groupedCode groupedVal

/-! ### `calculate_fuel_percentage` (lines 57-127) -/

/-- Columns of the caller's boiler_fuel_eia923 frame on entry (docstring,
lines 62-68). -/
def inputTableColumns : List String :=
  ["plant_id_eia", "boiler_id", "fuel_type_code", "report_date",
   "fuel_consumed_units", "fuel_mmbtu_per_unit"]

/-- Columns of the caller's frame after line 72 has executed: the in-place
assignment `bf_df['fuel_consumed_mmbtu'] = ...` adds a column to the
caller's object (the later `bf_df = bf_df[[...]]` rebinds only the local). -/
def mutatedTableColumns : List String :=
  inputTableColumns ++ ["fuel_consumed_mmbtu"]

/-- Index labels of the pivot per granularity (line 86 and line 104):
`reset_index()` at line 124 reinserts them as columns and raises
`ValueError` when a column with the same label is already present. -/
def pivotIndexNames (level : String) : List String :=
  if level = "boiler" then ["report_date", "plant_id_eia", "boiler_id"]
  else ["report_date", "plant_id_eia"]

/-- Whether `reset_index()` at line 124 fails: some fuel column remaining
after the "total" column was dropped at line 123 carries the same label as
one of the index levels being reinserted. -/
def resetIndexCollision (cols : List String) (level : String) : Bool :=
  (cols.filter fun f => f ≠ "total").any fun f => decide (f ∈ pivotIndexNames level)

/-- Lines 57-127.  First component: the caller's table after the call
(line 72 added the `fuel_consumed_mmbtu` column in place).  Second
component: the returned share table, or the `NameError` an unrecognized
`level` raises at line 109, or the `ValueError` `reset_index()` raises at
line 124 when a remaining fuel column collides with one of the pivot's
index labels. -/
def calculate_fuel_percentage (bf_df : List BoilerFuelRecord) (level : String) :
    List BoilerFuelRecordMut × Except EgridError (List ShareRow) :=
  let mutated := bf_df.map fun r => { toBoilerFuelRecord := r, fuel_consumed_mmbtu := heatOf r }
  if level = "boiler" then
    (mutated,
      if resetIndexCollision (boilerPivotCols bf_df) "boiler" then
        .error .valueError
      else
        .ok (finishPivot (boilerPivotKeys bf_df) (boilerPivotCols bf_df)
          (boilerPivotCell bf_df)))
  else if level = "plant" then
    (mutated,
      if resetIndexCollision (plantPivotCols bf_df) "plant" then
        .error .valueError
      else
        .ok (finishPivot (plantPivotKeys bf_df) (plantPivotCols bf_df)
          (plantPivotCell bf_df)))
  else
    (mutated, .error .nameError)

/-! ### `determine_primary_fuel` (lines 8-54) -/

/-- pandas `idxmax(axis=1)` over the non-NaN entries of a row: the label of
the first column attaining the maximum value, `none` when every entry is
NaN. -/
def idxmaxGo (best : String × ℚ) : List (String × ℚ) → String × ℚ
  | [] => best
  | p :: ps => idxmaxGo (if best.2 < p.2 then p else best) ps

def idxmax : List (String × ℚ) → Option String
  | [] => none
  | p :: ps => some (idxmaxGo p ps).1

/-- Lines 47-52 applied to one share row: mask out shares below
`fuel_thresh` (`where` leaves NaN there, which `idxmax` skips), take
`idxmax`, and `fillna('unknown')`. -/
def select_primary_fuel (shares : List (String × ℚ)) (fuel_thresh : ℚ) : String :=
  (idxmax (shares.filter fun p => fuel_thresh ≤ p.2)).getD "unknown"

/-- Lines 8-54: compute the share table, set the key columns as index, and
derive `primary_fuel` per row.  The caller's frame is mutated exactly as by
`calculate_fuel_percentage` (the mutation at line 72 happens before any
failure). -/
def determine_primary_fuel (bf_df : List BoilerFuelRecord) (fuel_thresh : ℚ)
    (level : String) :
    List BoilerFuelRecordMut × Except EgridError (List PrimaryFuelRow) :=
  let pf := calculate_fuel_percentage bf_df level
  (pf.1, pf.2.map fun pf_by_heat =>
    pf_by_heat.map fun row => ⟨row.key, select_primary_fuel row.shares fuel_thresh⟩)

/-! ### derived quantities the claims refer to -/

/-- The pre-normalization `total` (line 109) of the pivot row at key `k`
for the given granularity. -/
def pivotRowTotal (bf : List BoilerFuelRecord) (level : String) (k : Key) : ℚ :=
  if level = "boiler" then rowTotal (boilerPivotCols bf) (boilerPivotCell bf k)
  else rowTotal (plantPivotCols bf) (plantPivotCell bf k)

/-- The input records of one (plant, period) entity and one fuel type:
those a plant-level pivot cell aggregates. -/
def plantFuelGroup (bf : List BoilerFuelRecord) (k : Key) (f : String) :
    List BoilerFuelRecord :=
  bf.filter fun r => decide (plantKey r = k ∧ fuelCode r = f)

/-- Total heat content of one entity-period: the sum of
`fuel_consumed_units * fuel_mmbtu_per_unit` over every input record of that
entity and period (NaN contributions counting as 0, as in every pandas sum
on this path). -/
def entityTotalHeat (keyOf : BoilerFuelRecord → Key) (bf : List BoilerFuelRecord)
    (k : Key) : ℚ :=
  ((bf.filter fun r => decide (keyOf r = k)).map fun r => (heatOf r).getD 0).sum

/-! ### concrete tables used by the witnesses and counterexamples -/

/-- January 2020, the report_date used by all concrete examples. -/
def Jan : Nat := 202001

/-- Boiler 1 of plant 1 in January 2020, as a pivot key. -/
def bKey : Key := ⟨Jan, 1, some "1"⟩

/-- Plant 1 in January 2020, as a pivot key. -/
def pKey : Key := ⟨Jan, 1, none⟩

/-- A plant burning 100 units of coal and 0 units of gas. -/
def c1bf : List BoilerFuelRecord :=
  [⟨1, "1", Jan, "COAL", some 100, some 1⟩, ⟨1, "1", Jan, "GAS", some 0, some 1⟩]

/-- A coal record next to a record whose fuel type code is the literal
string "total" — the bookkeeping column name of line 109. -/
def c1cbf : List BoilerFuelRecord :=
  [⟨1, "1", Jan, "COAL", some 1, some 1⟩, ⟨1, "1", Jan, "total", some 9, some 1⟩]

/-- Duplicate boiler-level coal records plus a negative gas record; the
entity's summed heat content is 1 + 1 - 2 = 0. -/
def c2bf : List BoilerFuelRecord :=
  [⟨1, "1", Jan, "COAL", some 1, some 1⟩, ⟨1, "1", Jan, "COAL", some 1, some 1⟩,
   ⟨1, "1", Jan, "GAS", some (-2), some 1⟩]

/-- Two plants: plant 1 with positive heat, plant 2 whose coal and gas
heats cancel to a zero total. -/
def c2wbf : List BoilerFuelRecord :=
  [⟨1, "1", Jan, "COAL", some 1, some 1⟩, ⟨2, "1", Jan, "COAL", some 1, some 1⟩,
   ⟨2, "1", Jan, "GAS", some (-1), some 1⟩]

/-- A record whose fuel type code is the literal string "unknown". -/
def c3bf : List BoilerFuelRecord := [⟨1, "1", Jan, "unknown", some 1, some 1⟩]

/-- A 60/40 coal/gas split. -/
def c3wbf : List BoilerFuelRecord :=
  [⟨1, "1", Jan, "COAL", some 3, some 1⟩, ⟨1, "1", Jan, "GAS", some 2, some 1⟩]

/-- Gas and coal exactly tied at half of the heat each. -/
def c4bf : List BoilerFuelRecord :=
  [⟨1, "1", Jan, "GAS", some 1, some 1⟩, ⟨1, "1", Jan, "COAL", some 1, some 1⟩]

/-- A gas record with a missing (NaN) fuel_mmbtu_per_unit field. -/
def c5bf : List BoilerFuelRecord :=
  [⟨1, "1", Jan, "COAL", some 1, some 1⟩, ⟨1, "1", Jan, "GAS", some 1, none⟩]

/-- A negative consumed-units record next to a positive one. -/
def c6bf : List BoilerFuelRecord :=
  [⟨1, "1", Jan, "COAL", some (-1), some 1⟩, ⟨1, "1", Jan, "GAS", some 2, some 1⟩]

/-- A single well-formed coal record. -/
def c6wbf : List BoilerFuelRecord := [⟨1, "1", Jan, "COAL", some 1, some 1⟩]

/-- Two boilers of the same plant burning coal: 2 units at 3 MMBTU/unit and
4 units at 1 MMBTU/unit. -/
def c7bf : List BoilerFuelRecord :=
  [⟨1, "1", Jan, "COAL", some 2, some 3⟩, ⟨1, "2", Jan, "COAL", some 4, some 1⟩]

/-- Two records for the same (plant, boiler, period, fuel) key with heat
contents 1 and 3, plus a gas record with heat content 2. -/
def c8bf : List BoilerFuelRecord :=
  [⟨1, "1", Jan, "COAL", some 1, some 1⟩, ⟨1, "1", Jan, "COAL", some 3, some 1⟩,
   ⟨1, "1", Jan, "GAS", some 2, some 1⟩]

/-- A single coal record consuming 2 units at 3 MMBTU per unit. -/
def c9bf : List BoilerFuelRecord := [⟨1, "1", Jan, "COAL", some 2, some 3⟩]

/-! ## Lemmas -/

/-- The executable character-list comparison agrees with lexicographic
order. -/
theorem lexLtb_iff_lex : ∀ as bs : List Char, lexLtb as bs = true ↔ List.Lex (· < ·) as bs := by
  intro as
  induction as with
  | nil =>
    intro bs
    cases bs with
    | nil =>
      rw [lexLtb]
      constructor
      · intro h; cases h
      · intro h; cases h
    | cons d ds =>
      rw [lexLtb]
      exact iff_of_true rfl List.Lex.nil
  | cons c cs ih =>
    intro bs
    cases bs with
    | nil =>
      rw [lexLtb]
      constructor
      · intro h; cases h
      · intro h; cases h
    | cons d ds =>
      rw [lexLtb]
      rcases lt_trichotomy c d with h | h | h
      · rw [if_pos h]
        exact iff_of_true rfl (List.Lex.rel h)
      · subst h
        rw [if_neg (lt_irrefl c), if_neg (lt_irrefl c), ih ds]
        constructor
        · exact fun hl => List.Lex.cons hl
        · intro hl
          cases hl with
          | cons h2 => exact h2
          | rel h2 => exact absurd h2 (lt_irrefl c)
      · rw [if_neg (lt_asymm h), if_pos h]
        constructor
        · intro hf; cases hf
        · intro hl
          cases hl with
          | cons h2 => exact absurd h (lt_irrefl c)
          | rel h2 => exact absurd h (lt_asymm h2)

/-- The executable string comparison agrees with the lexicographic order
on strings. -/
theorem strle_iff_le (a b : String) : strle a b ↔ a ≤ b := by
  unfold strle
  rw [Bool.eq_false_iff, ne_eq, lexLtb_iff_lex, String.le_iff_toList_le]
  exact @not_lt (List Char) _ _ _

theorem strle_total (a b : String) : strle a b ∨ strle b a := by
  rw [strle_iff_le, strle_iff_le]
  exact le_total a b

theorem strle_trans : ∀ {a b c : String}, strle a b → strle b c → strle a c := by
  intro a b c hab hbc
  rw [strle_iff_le] at *
  exact le_trans hab hbc

theorem sortedFuelCols_sorted (cols : List String) :
    (sortedFuelCols cols).Sorted (· ≤ ·) := by
  have h := @List.sorted_insertionSort String strle strle.decidable
    ⟨fun a b => strle_total a b⟩ ⟨fun _ _ _ => strle_trans⟩ cols
  exact h.imp (fun hab => (strle_iff_le _ _).mp hab)

theorem sortedFuelCols_perm (cols : List String) :
    List.Perm (sortedFuelCols cols) cols :=
  List.perm_insertionSort strle cols

/-! ### pivot column lemmas -/

theorem pivotCols_sorted {β : Type} [DecidableEq β] (rows : List β)
    (colOf : β → String) (valOf : β → Option ℚ) :
    (pivotCols rows colOf valOf).Sorted (· ≤ ·) :=
  List.Pairwise.sublist (List.filter_sublist _) (sortedFuelCols_sorted _)

theorem pivotCols_nodup {β : Type} [DecidableEq β] (rows : List β)
    (colOf : β → String) (valOf : β → Option ℚ) :
    (pivotCols rows colOf valOf).Nodup :=
  ((sortedFuelCols_perm _).symm.nodup ((rows.map colOf).nodup_dedup)).filter _

theorem pivotCols_sorted_lt {β : Type} [DecidableEq β] (rows : List β)
    (colOf : β → String) (valOf : β → Option ℚ) :
    (pivotCols rows colOf valOf).Sorted (· < ·) :=
  (pivotCols_sorted rows colOf valOf).lt_of_le (pivotCols_nodup rows colOf valOf)

theorem mem_pivotCols {β : Type} [DecidableEq β] {rows : List β}
    {colOf : β → String} {valOf : β → Option ℚ} {x : β}
    (hx : x ∈ rows) (hv : (valOf x).isSome) : colOf x ∈ pivotCols rows colOf valOf := by
  rw [pivotCols, List.mem_filter]
  constructor
  · exact (sortedFuelCols_perm _).mem_iff.mpr (List.mem_dedup.mpr (List.mem_map_of_mem colOf hx))
  · rw [List.any_eq_true]
    exact ⟨x, hx, by simp [hv]⟩

/-! ### finishPivot lemmas (lines 108-126) -/

theorem mem_pivotCols_inv {β : Type} [DecidableEq β] {rows : List β}
    {colOf : β → String} {valOf : β → Option ℚ} {f : String}
    (hf : f ∈ pivotCols rows colOf valOf) : ∃ x ∈ rows, colOf x = f := by
  rw [pivotCols, List.mem_filter] at hf
  have h1 : f ∈ (rows.map colOf).dedup := (sortedFuelCols_perm _).mem_iff.mp hf.1
  exact List.mem_map.mp (List.mem_dedup.mp h1)

theorem mem_finishPivot {keys : List Key} {cols : List String}
    {cell : Key → String → Option ℚ} {row : ShareRow} :
    row ∈ finishPivot keys cols cell ↔
      ∃ k, k ∈ keys ∧ rowTotal cols (cell k) ≠ 0 ∧
        row = ⟨k, (cols.filter fun f => f ≠ "total").map
          fun f => (f, (cell k f).getD 0 / rowTotal cols (cell k))⟩ := by
  rw [finishPivot, List.mem_filterMap]
  constructor
  · rintro ⟨k, hk, hsome⟩
    by_cases h : rowTotal cols (cell k) = 0
    · rw [if_pos h] at hsome
      cases hsome
    · rw [if_neg h] at hsome
      exact ⟨k, hk, h, (Option.some.injEq _ _).mp hsome |>.symm⟩
  · rintro ⟨k, hk, h, rfl⟩
    exact ⟨k, hk, by rw [if_neg h]⟩

theorem sum_map_div (l : List ℚ) (t : ℚ) :
    (l.map fun x => x / t).sum = l.sum / t := by
  induction l with
  | nil => simp
  | cons x xs ih => simp [ih, add_div]

theorem filter_ne_total_eq_self {cols : List String} (htot : "total" ∉ cols) :
    (cols.filter fun f => f ≠ "total") = cols := by
  rw [List.filter_eq_self]
  intro f hf
  exact decide_eq_true (fun heq => htot (heq ▸ hf))

/-- Core of the amended C1: when no fuel column is named "total" — so the
line-109 bookkeeping column overwrites nothing — every emitted row has
shares summing to exactly 1. -/
theorem shares_sum_of_mem_finishPivot {keys : List Key} {cols : List String}
    {cell : Key → String → Option ℚ} {row : ShareRow}
    (htot : "total" ∉ cols)
    (h : row ∈ finishPivot keys cols cell) :
    (row.shares.map Prod.snd).sum = 1 := by
  rcases mem_finishPivot.mp h with ⟨k, hk, hne, rfl⟩
  show (((cols.filter fun f => f ≠ "total").map
    fun f => (f, (cell k f).getD 0 / rowTotal cols (cell k))).map Prod.snd).sum = 1
  rw [filter_ne_total_eq_self htot]
  rw [List.map_map]
  have h1 : (Prod.snd ∘ fun f => (f, (cell k f).getD 0 / rowTotal cols (cell k)))
      = (fun x => x / rowTotal cols (cell k)) ∘ (fun f => (cell k f).getD 0) := rfl
  rw [h1, ← List.map_map, sum_map_div]
  rw [rowTotal] at hne ⊢
  exact div_self hne

theorem rowTotal_ne_zero_of_mem {keys : List Key} {cols : List String}
    {cell : Key → String → Option ℚ} {row : ShareRow}
    (h : row ∈ finishPivot keys cols cell) :
    rowTotal cols (cell row.key) ≠ 0 := by
  rcases mem_finishPivot.mp h with ⟨k, hk, hne, rfl⟩
  exact hne

theorem key_mem_of_mem_finishPivot {keys : List Key} {cols : List String}
    {cell : Key → String → Option ℚ} {row : ShareRow}
    (h : row ∈ finishPivot keys cols cell) : row.key ∈ keys := by
  rcases mem_finishPivot.mp h with ⟨k, hk, _, rfl⟩
  exact hk

theorem shares_names_of_mem_finishPivot {keys : List Key} {cols : List String}
    {cell : Key → String → Option ℚ} {row : ShareRow}
    (h : row ∈ finishPivot keys cols cell) :
    row.shares.map Prod.fst = cols.filter fun f => f ≠ "total" := by
  rcases mem_finishPivot.mp h with ⟨k, hk, hne, rfl⟩
  show (((cols.filter fun f => f ≠ "total").map
    fun f => (f, (cell k f).getD 0 / rowTotal cols (cell k))).map Prod.fst) = _
  rw [List.map_map]
  exact List.map_id' _

/-- Core of the amended C6: with nonnegative cells, every share lies in
the unit interval. -/
theorem share_bounds_of_mem_finishPivot {keys : List Key} {cols : List String}
    {cell : Key → String → Option ℚ} {row : ShareRow}
    (hcell : ∀ k f, 0 ≤ (cell k f).getD 0)
    (h : row ∈ finishPivot keys cols cell) :
    ∀ p ∈ row.shares, 0 ≤ p.2 ∧ p.2 ≤ 1 := by
  rcases mem_finishPivot.mp h with ⟨k, hk, hne, rfl⟩
  intro p hp
  rcases List.mem_map.mp hp with ⟨f, hf, rfl⟩
  have hfc : f ∈ cols := List.mem_of_mem_filter hf
  have hnn : ∀ x ∈ cols.map fun g => (cell k g).getD 0, 0 ≤ x := by
    intro x hx
    rcases List.mem_map.mp hx with ⟨g, _, rfl⟩
    exact hcell k g
  have htot_nonneg : 0 ≤ rowTotal cols (cell k) := List.sum_nonneg hnn
  have htot_pos : 0 < rowTotal cols (cell k) := lt_of_le_of_ne htot_nonneg (Ne.symm hne)
  refine ⟨div_nonneg (hcell k f) htot_nonneg, ?_⟩
  rw [div_le_one htot_pos, rowTotal]
  exact List.single_le_sum hnn _ (List.mem_map_of_mem _ hfc)

/-! ### idxmax lemmas (line 51) -/

theorem idxmaxGo_mem (best : String × ℚ) (l : List (String × ℚ)) :
    idxmaxGo best l ∈ best :: l := by
  induction l generalizing best with
  | nil => rw [idxmaxGo]; exact List.mem_cons_self _ _
  | cons p ps ih =>
    rw [idxmaxGo]
    rcases List.mem_cons.mp (ih (if best.2 < p.2 then p else best)) with h1 | h1
    · rw [h1]
      by_cases hb : best.2 < p.2
      · rw [if_pos hb]
        exact List.mem_cons_of_mem _ (List.mem_cons_self _ _)
      · rw [if_neg hb]
        exact List.mem_cons_self _ _
    · exact List.mem_cons_of_mem _ (List.mem_cons_of_mem _ h1)

theorem le_idxmaxGo_val (best : String × ℚ) (l : List (String × ℚ)) :
    best.2 ≤ (idxmaxGo best l).2 := by
  induction l generalizing best with
  | nil => rw [idxmaxGo]
  | cons p ps ih =>
    rw [idxmaxGo]
    refine le_trans ?_ (ih _)
    by_cases hb : best.2 < p.2
    · rw [if_pos hb]
      exact le_of_lt hb
    · rw [if_neg hb]

theorem val_le_idxmaxGo (best : String × ℚ) (l : List (String × ℚ)) :
    ∀ p ∈ best :: l, p.2 ≤ (idxmaxGo best l).2 := by
  induction l generalizing best with
  | nil =>
    intro p hp
    rcases List.mem_cons.mp hp with rfl | h
    · rw [idxmaxGo]
    · cases h
  | cons q ps ih =>
    intro p hp
    rw [idxmaxGo]
    have hch : p ∈ (if best.2 < q.2 then q else best) :: ps →
        p.2 ≤ (idxmaxGo (if best.2 < q.2 then q else best) ps).2 := ih _ p
    rcases List.mem_cons.mp hp with rfl | hp1
    · refine le_trans ?_ (le_idxmaxGo_val _ ps)
      by_cases hb : p.2 < q.2
      · rw [if_pos hb]
        exact le_of_lt hb
      · rw [if_neg hb]
    · rcases List.mem_cons.mp hp1 with rfl | hp2
      · refine le_trans ?_ (le_idxmaxGo_val _ ps)
        by_cases hb : best.2 < p.2
        · rw [if_pos hb]
        · rw [if_neg hb]
          exact le_of_not_lt hb
      · exact hch (List.mem_cons_of_mem _ hp2)

theorem idxmaxGo_first (best : String × ℚ) (l : List (String × ℚ))
    (hsorted : (best :: l).Pairwise (fun a b => a.1 < b.1)) :
    ∀ p ∈ best :: l, p.2 = (idxmaxGo best l).2 → (idxmaxGo best l).1 ≤ p.1 := by
  induction l generalizing best with
  | nil =>
    intro p hp hv
    rcases List.mem_cons.mp hp with rfl | h
    · rw [idxmaxGo]
    · cases h
  | cons q ps ih =>
    intro p hp hv
    rw [idxmaxGo] at hv ⊢
    rcases List.pairwise_cons.mp hsorted with ⟨hbest, hqs⟩
    rcases List.pairwise_cons.mp hqs with ⟨hq, hps⟩
    have hsorted' : ((if best.2 < q.2 then q else best) :: ps).Pairwise
        (fun a b : String × ℚ => a.1 < b.1) := by
      refine List.pairwise_cons.mpr ⟨?_, hps⟩
      intro x hx
      by_cases hb : best.2 < q.2
      · rw [if_pos hb]
        exact hq x hx
      · rw [if_neg hb]
        exact hbest x (List.mem_cons_of_mem _ hx)
    rcases List.mem_cons.mp hp with rfl | hp1
    · by_cases hb : p.2 < q.2
      · exfalso
        rw [if_pos hb] at hv
        have h1 : q.2 ≤ (idxmaxGo q ps).2 := le_idxmaxGo_val q ps
        rw [← hv] at h1
        exact absurd hb (not_lt.mpr h1)
      · rw [if_neg hb] at hv hsorted' ⊢
        exact ih p hsorted' p (List.mem_cons_self _ _) hv
    · rcases List.mem_cons.mp hp1 with rfl | hp2
      · by_cases hb : best.2 < p.2
        · rw [if_pos hb] at hv hsorted' ⊢
          exact ih p hsorted' p (List.mem_cons_self _ _) hv
        · rw [if_neg hb] at hv hsorted' ⊢
          have hvb : best.2 = (idxmaxGo best ps).2 := by
            have h1 : best.2 ≤ (idxmaxGo best ps).2 := le_idxmaxGo_val best ps
            have h2 : p.2 ≤ best.2 := le_of_not_lt hb
            exact le_antisymm h1 (hv ▸ h2)
          have h3 := ih best hsorted' best (List.mem_cons_self _ _) hvb
          exact le_trans h3 (le_of_lt (hbest p (List.mem_cons_self _ _)))
      · by_cases hb : best.2 < q.2
        · rw [if_pos hb] at hv hsorted' ⊢
          exact ih q hsorted' p (List.mem_cons_of_mem _ hp2) hv
        · rw [if_neg hb] at hv hsorted' ⊢
          exact ih best hsorted' p (List.mem_cons_of_mem _ hp2) hv

theorem idxmax_none_iff (l : List (String × ℚ)) : idxmax l = none ↔ l = [] := by
  cases l with
  | nil => simp [idxmax]
  | cons p ps => simp [idxmax]

theorem idxmax_spec (l : List (String × ℚ)) (f : String) (h : idxmax l = some f) :
    ∃ v, (f, v) ∈ l ∧ ∀ p ∈ l, p.2 ≤ v := by
  cases l with
  | nil => cases h
  | cons p ps =>
    rw [idxmax] at h
    have hf : (idxmaxGo p ps).1 = f := by
      injection h
    refine ⟨(idxmaxGo p ps).2, ?_, val_le_idxmaxGo p ps⟩
    rw [← hf]
    have heta : ((idxmaxGo p ps).1, (idxmaxGo p ps).2) = idxmaxGo p ps := rfl
    rw [heta]
    exact idxmaxGo_mem p ps

/-! ### select_primary_fuel lemmas (lines 47-52) -/

theorem mem_maskedShares {shares : List (String × ℚ)} {thresh : ℚ} {p : String × ℚ} :
    p ∈ shares.filter (fun q => thresh ≤ q.2) ↔ p ∈ shares ∧ thresh ≤ p.2 := by
  rw [List.mem_filter, decide_eq_true_eq]

/-- Core of the amended C3, unknown direction: with no fuel literally named
"unknown", the classifier outputs "unknown" exactly when every share is
below the threshold. -/
theorem select_eq_unknown_iff (shares : List (String × ℚ)) (thresh : ℚ)
    (hnames : ∀ p ∈ shares, p.1 ≠ "unknown") :
    select_primary_fuel shares thresh = "unknown" ↔ ∀ p ∈ shares, p.2 < thresh := by
  rw [select_primary_fuel]
  cases hmask : idxmax (shares.filter fun q => thresh ≤ q.2) with
  | none =>
    rw [Option.getD_none]
    refine iff_of_true rfl ?_
    intro p hp
    by_contra hnot
    have hp2 : p ∈ shares.filter (fun q => thresh ≤ q.2) :=
      mem_maskedShares.mpr ⟨hp, le_of_not_lt hnot⟩
    rw [(idxmax_none_iff _).mp hmask] at hp2
    cases hp2
  | some f =>
    rw [Option.getD_some]
    refine iff_of_false ?_ ?_
    · rcases idxmax_spec _ f hmask with ⟨v, hv, _⟩
      rcases mem_maskedShares.mp hv with ⟨hvs, _⟩
      exact hnames (f, v) hvs
    · rcases idxmax_spec _ f hmask with ⟨v, hv, _⟩
      rcases mem_maskedShares.mp hv with ⟨hvs, hvt⟩
      intro hall
      exact absurd hvt (not_le.mpr (hall (f, v) hvs))

/-- Core of C3, qualification direction: a non-"unknown" classification is a
fuel present in the row with share at or above the threshold, and it attains
the maximum among qualifying shares. -/
theorem select_spec (shares : List (String × ℚ)) (thresh : ℚ) (f : String)
    (hf : select_primary_fuel shares thresh = f) (hne : f ≠ "unknown") :
    ∃ v, (f, v) ∈ shares ∧ thresh ≤ v ∧ ∀ p ∈ shares, thresh ≤ p.2 → p.2 ≤ v := by
  rw [select_primary_fuel] at hf
  cases hmask : idxmax (shares.filter fun q => thresh ≤ q.2) with
  | none =>
    rw [hmask, Option.getD_none] at hf
    exact absurd hf.symm hne
  | some g =>
    rw [hmask, Option.getD_some] at hf
    rcases idxmax_spec _ g hmask with ⟨v, hv, hmax⟩
    rcases mem_maskedShares.mp hv with ⟨hvs, hvt⟩
    subst hf
    refine ⟨v, hvs, hvt, ?_⟩
    intro p hp hpt
    exact hmax p (mem_maskedShares.mpr ⟨hp, hpt⟩)

/-- Core of C4: on a row whose fuel columns are strictly sorted by name (as
pandas pivoting produces them), idxmax picks the lexicographically least
fuel among those tied at the maximal qualifying share. -/
theorem select_lex_first (shares : List (String × ℚ)) (thresh : ℚ)
    (hsorted : shares.Pairwise (fun a b => a.1 < b.1))
    (f : String) (m : ℚ) (hmem : (f, m) ∈ shares) (hth : thresh ≤ m)
    (hmax : ∀ p ∈ shares, thresh ≤ p.2 → p.2 ≤ m)
    (hlex : ∀ p ∈ shares, thresh ≤ p.2 → p.2 = m → f ≤ p.1) :
    select_primary_fuel shares thresh = f := by
  have hfm : (f, m) ∈ shares.filter (fun q => thresh ≤ q.2) :=
    mem_maskedShares.mpr ⟨hmem, hth⟩
  have hmsorted : (shares.filter fun q => thresh ≤ q.2).Pairwise
      (fun a b : String × ℚ => a.1 < b.1) :=
    List.Pairwise.sublist (List.filter_sublist _) hsorted
  rw [select_primary_fuel]
  cases hm : shares.filter (fun q => thresh ≤ q.2) with
  | nil => rw [hm] at hfm; cases hfm
  | cons q qs =>
    rw [hm] at hfm hmsorted
    rw [idxmax, Option.getD_some]
    have hRmem : idxmaxGo q qs ∈ q :: qs := idxmaxGo_mem q qs
    have hRmem' : idxmaxGo q qs ∈ shares.filter (fun p => thresh ≤ p.2) := by
      rw [hm]; exact hRmem
    rcases mem_maskedShares.mp hRmem' with ⟨hRs, hRt⟩
    have hRv : (idxmaxGo q qs).2 = m := by
      have h1 : (idxmaxGo q qs).2 ≤ m := hmax _ hRs hRt
      have h2 : m ≤ (idxmaxGo q qs).2 := val_le_idxmaxGo q qs (f, m) hfm
      exact le_antisymm h1 h2
    have h3 : (idxmaxGo q qs).1 ≤ f :=
      idxmaxGo_first q qs hmsorted (f, m) hfm hRv.symm
    have h4 : f ≤ (idxmaxGo q qs).1 := hlex _ hRs hRt hRv
    exact le_antisymm h3 h4

/-! ### unfolding the two entry points -/

theorem calculate_boiler_eq (bf : List BoilerFuelRecord) :
    (calculate_fuel_percentage bf "boiler").2 =
      if resetIndexCollision (boilerPivotCols bf) "boiler" = true then
        .error .valueError
      else .ok (finishPivot (boilerPivotKeys bf) (boilerPivotCols bf)
        (boilerPivotCell bf)) := rfl

theorem calculate_plant_eq (bf : List BoilerFuelRecord) :
    (calculate_fuel_percentage bf "plant").2 =
      if resetIndexCollision (plantPivotCols bf) "plant" = true then
        .error .valueError
      else .ok (finishPivot (plantPivotKeys bf) (plantPivotCols bf)
        (plantPivotCell bf)) := rfl

theorem calculate_boiler (bf : List BoilerFuelRecord)
    (hcol : ¬ resetIndexCollision (boilerPivotCols bf) "boiler" = true) :
    (calculate_fuel_percentage bf "boiler").2 =
      .ok (finishPivot (boilerPivotKeys bf) (boilerPivotCols bf) (boilerPivotCell bf)) := by
  rw [calculate_boiler_eq, if_neg hcol]

theorem calculate_plant (bf : List BoilerFuelRecord)
    (hcol : ¬ resetIndexCollision (plantPivotCols bf) "plant" = true) :
    (calculate_fuel_percentage bf "plant").2 =
      .ok (finishPivot (plantPivotKeys bf) (plantPivotCols bf) (plantPivotCell bf)) := by
  rw [calculate_plant_eq, if_neg hcol]

theorem calculate_other (bf : List BoilerFuelRecord) (level : String)
    (h1 : level ≠ "boiler") (h2 : level ≠ "plant") :
    (calculate_fuel_percentage bf level).2 = .error .nameError := by
  rw [calculate_fuel_percentage]
  simp [h1, h2]

theorem calculate_ok_cases (bf : List BoilerFuelRecord) (level : String)
    (out : List ShareRow)
    (h : (calculate_fuel_percentage bf level).2 = .ok out) :
    (level = "boiler" ∧
      out = finishPivot (boilerPivotKeys bf) (boilerPivotCols bf) (boilerPivotCell bf)) ∨
    (level = "plant" ∧
      out = finishPivot (plantPivotKeys bf) (plantPivotCols bf) (plantPivotCell bf)) := by
  by_cases hb : level = "boiler"
  · subst hb
    rw [calculate_boiler_eq] at h
    by_cases hcol : resetIndexCollision (boilerPivotCols bf) "boiler" = true
    · rw [if_pos hcol] at h
      cases h
    · rw [if_neg hcol] at h
      injection h with h
      exact Or.inl ⟨rfl, h.symm⟩
  · by_cases hp : level = "plant"
    · subst hp
      rw [calculate_plant_eq] at h
      by_cases hcol : resetIndexCollision (plantPivotCols bf) "plant" = true
      · rw [if_pos hcol] at h
        cases h
      · rw [if_neg hcol] at h
        injection h with h
        exact Or.inr ⟨rfl, h.symm⟩
    · rw [calculate_other bf level hb hp] at h
      cases h

theorem determine_eq (bf : List BoilerFuelRecord) (thresh : ℚ) (level : String)
    (srows : List ShareRow)
    (h : (calculate_fuel_percentage bf level).2 = .ok srows) :
    (determine_primary_fuel bf thresh level).2 =
      .ok (srows.map fun row => ⟨row.key, select_primary_fuel row.shares thresh⟩) := by
  rw [determine_primary_fuel]
  show ((calculate_fuel_percentage bf level).2.map _) = _
  rw [h]
  rfl

theorem determine_error (bf : List BoilerFuelRecord) (thresh : ℚ) (level : String)
    (h : (calculate_fuel_percentage bf level).2 = .error .nameError) :
    (determine_primary_fuel bf thresh level).2 = .error .nameError := by
  rw [determine_primary_fuel]
  show ((calculate_fuel_percentage bf level).2.map _) = _
  rw [h]
  rfl

theorem determine_ok_inv (bf : List BoilerFuelRecord) (thresh : ℚ) (level : String)
    (pout : List PrimaryFuelRow)
    (h : (determine_primary_fuel bf thresh level).2 = .ok pout) :
    ∃ srows, (calculate_fuel_percentage bf level).2 = .ok srows ∧
      pout = srows.map fun row => ⟨row.key, select_primary_fuel row.shares thresh⟩ := by
  have h2 : ((calculate_fuel_percentage bf level).2.map fun pf_by_heat =>
      pf_by_heat.map fun row =>
        (⟨row.key, select_primary_fuel row.shares thresh⟩ : PrimaryFuelRow)) =
      Except.ok pout := h
  cases hc : (calculate_fuel_percentage bf level).2 with
  | error e =>
    rw [hc] at h2
    have h3 : (Except.error e : Except EgridError (List PrimaryFuelRow)) =
        Except.ok pout := h2
    cases h3
  | ok srows =>
    rw [hc] at h2
    have h3 : Except.ok (srows.map fun row =>
        (⟨row.key, select_primary_fuel row.shares thresh⟩ : PrimaryFuelRow)) =
        Except.ok pout := h2
    injection h3 with h3
    exact ⟨srows, rfl, h3.symm⟩

/-! ### plant-granularity aggregation lemmas (lines 98-106) -/

theorem heat_filterMap_sum (l : List BoilerFuelRecord) :
    (l.filterMap heatOf).sum = (l.map fun r => (heatOf r).getD 0).sum := by
  induction l with
  | nil => rfl
  | cons r rs ih =>
    cases h : heatOf r with
    | none => simp [List.filterMap_cons, h, ih]
    | some v => simp [List.filterMap_cons, h, ih]

theorem filterMap_unique {α β : Type} [DecidableEq α] (l : List α) (hnd : l.Nodup)
    (c₀ : α) (g : α → β) (P : α → Prop) [DecidablePred P] (hP : ∀ c, P c ↔ c = c₀) :
    (l.filterMap fun c => if P c then some (g c) else none) =
      if c₀ ∈ l then [g c₀] else [] := by
  induction l with
  | nil => simp
  | cons a l ih =>
    rcases List.nodup_cons.mp hnd with ⟨hal, hl⟩
    rw [List.filterMap_cons]
    by_cases ha : a = c₀
    · subst ha
      rw [if_pos ((hP a).mpr rfl)]
      have hrest : (l.filterMap fun c => if P c then some (g c) else none) = [] := by
        rw [List.filterMap_eq_nil_iff]
        intro x hx
        rw [if_neg]
        intro hPx
        exact hal ((hP x).mp hPx ▸ hx)
      show g a :: (l.filterMap fun c => if P c then some (g c) else none) = _
      rw [hrest, if_pos (List.mem_cons_self a l)]
    · rw [if_neg (fun hPa => ha ((hP a).mp hPa))]
      show (l.filterMap fun c => if P c then some (g c) else none) = _
      rw [ih hl]
      have hmem : c₀ ∈ a :: l ↔ c₀ ∈ l := by
        rw [List.mem_cons]
        exact or_iff_right (fun h => ha h.symm)
      by_cases hc : c₀ ∈ l
      · rw [if_pos hc, if_pos (hmem.mpr hc)]
      · rw [if_neg hc, if_neg (fun h => hc (hmem.mp h))]

theorem mem_combos_iff (bf : List BoilerFuelRecord) (c : Nat × Nat × String) :
    c ∈ (bf.map comboOf).dedup ↔ ∃ r ∈ bf, comboOf r = c := by
  rw [List.mem_dedup, List.mem_map]

theorem comboFilter_eq_plantFuelGroup (bf : List BoilerFuelRecord) (d p : Nat)
    (f : String) :
    (bf.filter fun r => decide (comboOf r = (p, d, f))) =
      plantFuelGroup bf ⟨d, p, none⟩ f := by
  rw [plantFuelGroup]
  apply List.filter_congr
  intro r _
  rw [decide_eq_decide]
  rw [comboOf, plantKey, fuelCode, Prod.ext_iff, Prod.ext_iff, Key.mk.injEq]
  constructor
  · rintro ⟨h1, h2, h3⟩
    exact ⟨⟨h2, h1, rfl⟩, h3⟩
  · rintro ⟨⟨h1, h2, _⟩, h3⟩
    exact ⟨h2, h1, h3⟩

theorem plant_pivotGroup_eq (bf : List BoilerFuelRecord) (d p : Nat) (f : String) :
    pivotGroup (plantGroupRows bf) groupedKey groupedCode groupedVal ⟨d, p, none⟩ f =
      if (p, d, f) ∈ (bf.map comboOf).dedup
        then [groupHeatSum bf (p, d, f)] else [] := by
  have hP : ∀ c : Nat × Nat × String,
      ((⟨c.2.1, c.1, none⟩ : Key) = (⟨d, p, none⟩ : Key) ∧ c.2.2 = f) ↔
        c = (p, d, f) := by
    intro c
    rw [Key.mk.injEq, Prod.ext_iff, Prod.ext_iff]
    constructor
    · rintro ⟨⟨h1, h2, _⟩, h3⟩
      exact ⟨h2, h1, h3⟩
    · rintro ⟨h1, h2, h3⟩
      exact ⟨⟨h2, h1, rfl⟩, h3⟩
  have h := filterMap_unique ((bf.map comboOf).dedup) ((bf.map comboOf).nodup_dedup)
    ((p, d, f) : Nat × Nat × String) (fun c => groupHeatSum bf c)
    (fun c => (⟨c.2.1, c.1, none⟩ : Key) = (⟨d, p, none⟩ : Key) ∧ c.2.2 = f) hP
  rw [pivotGroup, plantGroupRows, List.filterMap_map]
  refine Eq.trans (Eq.trans rfl h) ?_
  by_cases hc : ((p, d, f) : Nat × Nat × String) ∈ (bf.map comboOf).dedup
  · rw [if_pos hc, if_pos hc]
  · rw [if_neg hc, if_neg hc]

theorem plant_pivotGroup_eq_nil_of_boiler (bf : List BoilerFuelRecord) (d p : Nat)
    (b : String) (f : String) :
    pivotGroup (plantGroupRows bf) groupedKey groupedCode groupedVal ⟨d, p, some b⟩ f
      = [] := by
  rw [pivotGroup, List.filterMap_eq_nil_iff]
  intro g _
  rw [if_neg]
  rintro ⟨h1, _⟩
  rw [groupedKey, Key.mk.injEq] at h1
  cases h1.2.2

theorem plantFuelGroup_eq_nil_of_boiler (bf : List BoilerFuelRecord) (d p : Nat)
    (b : String) (f : String) :
    plantFuelGroup bf ⟨d, p, some b⟩ f = [] := by
  rw [plantFuelGroup, List.filter_eq_nil_iff]
  intro r _
  rw [decide_eq_true_eq]
  rintro ⟨h1, _⟩
  rw [plantKey, Key.mk.injEq] at h1
  cases h1.2.2

theorem plantFuelGroup_eq_nil_of_not_mem (bf : List BoilerFuelRecord) (d p : Nat)
    (f : String) (h : (p, d, f) ∉ (bf.map comboOf).dedup) :
    plantFuelGroup bf ⟨d, p, none⟩ f = [] := by
  rw [← comboFilter_eq_plantFuelGroup, List.filter_eq_nil_iff]
  intro r hr
  rw [decide_eq_true_eq]
  intro hc
  exact h ((mem_combos_iff bf _).mpr ⟨r, hr, hc⟩)

/-- A plant-level pivot cell with at least one contributing record is the
plain sum of the heat contents of the records of that plant, period and
fuel: the groupby of lines 98-99 already collapsed boiler identity, so the
mean aggregation of the pivot sees a single value. -/
theorem plantPivotCell_eq_sum (bf : List BoilerFuelRecord) (k : Key) (f : String)
    (hne : plantFuelGroup bf k f ≠ []) :
    plantPivotCell bf k f =
      some (((plantFuelGroup bf k f).map fun r => (heatOf r).getD 0).sum) := by
  obtain ⟨r₀, hr₀⟩ : ∃ r₀, r₀ ∈ plantFuelGroup bf k f := by
    cases h : plantFuelGroup bf k f with
    | nil => exact absurd h hne
    | cons x xs => exact ⟨x, h ▸ List.mem_cons_self x xs⟩
  rw [plantFuelGroup, List.mem_filter, decide_eq_true_eq] at hr₀
  have hr₀bf := hr₀.1
  have hr₀k := hr₀.2.1
  have hr₀f := hr₀.2.2
  have hkform : k = ⟨r₀.report_date, r₀.plant_id_eia, none⟩ := hr₀k.symm
  subst hkform
  have hc : (r₀.plant_id_eia, r₀.report_date, f) ∈ (bf.map comboOf).dedup := by
    rw [mem_combos_iff]
    refine ⟨r₀, hr₀bf, ?_⟩
    rw [comboOf]
    exact congrArg (fun x => (r₀.plant_id_eia, r₀.report_date, x)) hr₀f
  rw [plantPivotCell, pivot_cell]
  show (if pivotGroup (plantGroupRows bf) groupedKey groupedCode groupedVal _ f = []
    then none else _) = _
  rw [plant_pivotGroup_eq bf r₀.report_date r₀.plant_id_eia f, if_pos hc]
  rw [if_neg (by simp : ¬ ([groupHeatSum bf (r₀.plant_id_eia, r₀.report_date, f)] = []))]
  rw [List.sum_cons, List.sum_nil, add_zero, List.length_singleton]
  rw [Nat.cast_one, div_one, groupHeatSum, heat_filterMap_sum,
    comboFilter_eq_plantFuelGroup]

/-- The fillna(0) view of a plant-level pivot cell: always the sum of the
matching records' heat contents (an absent combination contributes zero). -/
theorem plant_cellD (bf : List BoilerFuelRecord) (k : Key) (f : String) :
    (plantPivotCell bf k f).getD 0 =
      ((plantFuelGroup bf k f).map fun r => (heatOf r).getD 0).sum := by
  by_cases hne : plantFuelGroup bf k f = []
  · rw [hne]
    obtain ⟨d, p, ob⟩ := k
    cases ob with
    | some b =>
      rw [plantPivotCell, pivot_cell]
      show (if pivotGroup (plantGroupRows bf) groupedKey groupedCode groupedVal _ f = []
        then none else _).getD 0 = _
      rw [plant_pivotGroup_eq_nil_of_boiler, if_pos rfl, Option.getD_none, List.map_nil,
        List.sum_nil]
    | none =>
      by_cases hc : (p, d, f) ∈ (bf.map comboOf).dedup
      · exfalso
        rcases (mem_combos_iff bf _).mp hc with ⟨r, hr, hcr⟩
        have : r ∈ plantFuelGroup bf ⟨d, p, none⟩ f := by
          rw [← comboFilter_eq_plantFuelGroup, List.mem_filter, decide_eq_true_eq]
          exact ⟨hr, hcr⟩
        rw [hne] at this
        cases this
      · rw [plantPivotCell, pivot_cell]
        show (if pivotGroup (plantGroupRows bf) groupedKey groupedCode groupedVal _ f = []
          then none else _).getD 0 = _
        rw [plant_pivotGroup_eq bf d p f, if_neg hc, if_pos rfl, Option.getD_none,
          List.map_nil, List.sum_nil]
  · rw [plantPivotCell_eq_sum bf k f hne, Option.getD_some]

theorem sum_map_zero (cols : List String) : (cols.map fun _ => (0 : ℚ)).sum = 0 := by
  induction cols with
  | nil => rfl
  | cons c cs ih => rw [List.map_cons, List.sum_cons, ih, add_zero]

theorem map_ite_of_not_mem (cols : List String) (a : String) (ha : a ∉ cols)
    (x : ℚ) (S : String → ℚ) :
    (cols.map fun f => if a = f then x + S f else S f) = cols.map S := by
  apply List.map_congr_left
  intro f hf
  rw [if_neg]
  intro h
  exact ha (h ▸ hf)

theorem sum_map_ite_add (cols : List String) (hnd : cols.Nodup) (a : String)
    (ha : a ∈ cols) (x : ℚ) (S : String → ℚ) :
    (cols.map fun f => if a = f then x + S f else S f).sum = x + (cols.map S).sum := by
  induction cols with
  | nil => cases ha
  | cons c cs ih =>
    rcases List.nodup_cons.mp hnd with ⟨hcs, hcs'⟩
    rw [List.map_cons, List.sum_cons, List.map_cons, List.sum_cons]
    by_cases hac : a = c
    · subst hac
      rw [if_pos rfl, map_ite_of_not_mem cs a hcs x S, add_assoc]
    · rcases List.mem_cons.mp ha with h | h
      · exact absurd h hac
      · rw [if_neg hac, ih hcs' h, add_left_comm]

theorem entityTotalHeat_cons (keyOf : BoilerFuelRecord → Key)
    (r : BoilerFuelRecord) (l : List BoilerFuelRecord) (k : Key) :
    entityTotalHeat keyOf (r :: l) k =
      (if keyOf r = k then (heatOf r).getD 0 else 0) + entityTotalHeat keyOf l k := by
  rw [entityTotalHeat, entityTotalHeat, List.filter_cons]
  by_cases h : keyOf r = k
  · rw [if_pos h, if_pos (decide_eq_true h), List.map_cons, List.sum_cons]
  · rw [if_neg h, if_neg (by rw [decide_eq_true_eq]; exact h), zero_add]

theorem plantFuelGroup_cons (r : BoilerFuelRecord) (l : List BoilerFuelRecord)
    (k : Key) (f : String) :
    plantFuelGroup (r :: l) k f =
      if plantKey r = k ∧ fuelCode r = f then r :: plantFuelGroup l k f
      else plantFuelGroup l k f := by
  rw [plantFuelGroup, List.filter_cons, plantFuelGroup]
  by_cases h : plantKey r = k ∧ fuelCode r = f
  · rw [if_pos h, if_pos (decide_eq_true h)]
  · rw [if_neg h, if_neg (by rw [decide_eq_true_eq]; exact h)]

/-- Partition: summing the plant-level cell values over a duplicate-free
column list that covers every fuel of the entity gives the entity's total
heat content. -/
theorem sum_plantFuelGroups (bf : List BoilerFuelRecord) (k : Key)
    (cols : List String) (hnd : cols.Nodup)
    (hcover : ∀ r ∈ bf, plantKey r = k → fuelCode r ∈ cols) :
    (cols.map fun f => ((plantFuelGroup bf k f).map fun r => (heatOf r).getD 0).sum).sum
      = entityTotalHeat plantKey bf k := by
  induction bf with
  | nil =>
    rw [entityTotalHeat]
    have h1 : (cols.map fun f =>
        ((plantFuelGroup ([] : List BoilerFuelRecord) k f).map
          fun r => (heatOf r).getD 0).sum) = cols.map fun _ => (0 : ℚ) := by
      apply List.map_congr_left
      intro f _
      rw [plantFuelGroup, List.filter_nil, List.map_nil, List.sum_nil]
    rw [h1, List.filter_nil, List.map_nil, List.sum_nil, sum_map_zero]
  | cons r l ih =>
    have hcover' : ∀ x ∈ l, plantKey x = k → fuelCode x ∈ cols :=
      fun x hx => hcover x (List.mem_cons_of_mem _ hx)
    rw [entityTotalHeat_cons]
    by_cases hk : plantKey r = k
    · rw [if_pos hk]
      have h1 : (cols.map fun f =>
          ((plantFuelGroup (r :: l) k f).map fun x => (heatOf x).getD 0).sum) =
          cols.map fun f => if fuelCode r = f
            then (heatOf r).getD 0 +
              ((plantFuelGroup l k f).map fun x => (heatOf x).getD 0).sum
            else ((plantFuelGroup l k f).map fun x => (heatOf x).getD 0).sum := by
        apply List.map_congr_left
        intro f _
        rw [plantFuelGroup_cons]
        by_cases hf : fuelCode r = f
        · rw [if_pos ⟨hk, hf⟩, if_pos hf, List.map_cons, List.sum_cons]
        · rw [if_neg (fun hand => hf hand.2), if_neg hf]
      rw [h1, sum_map_ite_add cols hnd (fuelCode r)
        (hcover r (List.mem_cons_self r l) hk) _ _, ih hcover']
    · rw [if_neg hk, zero_add]
      have h1 : (cols.map fun f =>
          ((plantFuelGroup (r :: l) k f).map fun x => (heatOf x).getD 0).sum) =
          cols.map fun f => ((plantFuelGroup l k f).map fun x => (heatOf x).getD 0).sum := by
        apply List.map_congr_left
        intro f _
        rw [plantFuelGroup_cons, if_neg (fun hand => hk hand.1)]
      rw [h1, ih hcover']

theorem fuelCode_mem_plantPivotCols (bf : List BoilerFuelRecord)
    {r : BoilerFuelRecord} (hr : r ∈ bf) : fuelCode r ∈ plantPivotCols bf := by
  have hc : comboOf r ∈ (bf.map comboOf).dedup :=
    List.mem_dedup.mpr (List.mem_map_of_mem comboOf hr)
  have hg : (⟨(comboOf r).1, (comboOf r).2.1, (comboOf r).2.2,
      groupHeatSum bf (comboOf r)⟩ : GroupedRow) ∈ plantGroupRows bf := by
    rw [plantGroupRows]
    exact List.mem_map_of_mem _ hc
  have := @mem_pivotCols GroupedRow _ (plantGroupRows bf) groupedCode groupedVal
    _ hg (by rw [groupedVal]; rfl)
  rw [groupedCode] at this
  exact this

/-! ### nonnegative cells (for the amended C6) -/

theorem mem_pivotGroup {β : Type} {rows : List β} {keyOf : β → Key}
    {colOf : β → String} {valOf : β → Option ℚ} {k : Key} {f : String} {v : ℚ}
    (hv : v ∈ pivotGroup rows keyOf colOf valOf k f) :
    ∃ x ∈ rows, valOf x = some v := by
  rw [pivotGroup, List.mem_filterMap] at hv
  rcases hv with ⟨x, hx, hfx⟩
  by_cases hc : keyOf x = k ∧ colOf x = f
  · rw [if_pos hc] at hfx
    exact ⟨x, hx, hfx⟩
  · rw [if_neg hc] at hfx
    cases hfx

theorem pivot_cellD_nonneg {β : Type} (rows : List β) (keyOf : β → Key)
    (colOf : β → String) (valOf : β → Option ℚ) (k : Key) (f : String)
    (hv : ∀ x ∈ rows, ∀ v, valOf x = some v → 0 ≤ v) :
    0 ≤ (pivot_cell rows keyOf colOf valOf k f).getD 0 := by
  rw [pivot_cell]
  by_cases hg : pivotGroup rows keyOf colOf valOf k f = []
  · rw [if_pos hg, Option.getD_none]
  · rw [if_neg hg, Option.getD_some]
    refine div_nonneg ?_ (Nat.cast_nonneg _)
    refine List.sum_nonneg ?_
    intro v hvm
    rcases mem_pivotGroup hvm with ⟨x, hx, hfx⟩
    exact hv x hx v hfx

theorem groupHeatSum_nonneg (bf : List BoilerFuelRecord)
    (hpos : ∀ r ∈ bf, 0 ≤ (heatOf r).getD 0) (c : Nat × Nat × String) :
    0 ≤ groupHeatSum bf c := by
  rw [groupHeatSum]
  refine List.sum_nonneg ?_
  intro v hv
  rcases List.mem_filterMap.mp hv with ⟨r, hr, hheat⟩
  have hrbf : r ∈ bf := List.mem_of_mem_filter hr
  have := hpos r hrbf
  rw [hheat, Option.getD_some] at this
  exact this

theorem boiler_cellD_nonneg (bf : List BoilerFuelRecord)
    (hpos : ∀ r ∈ bf, 0 ≤ (heatOf r).getD 0) (k : Key) (f : String) :
    0 ≤ (boilerPivotCell bf k f).getD 0 := by
  rw [boilerPivotCell]
  refine pivot_cellD_nonneg bf boilerKey fuelCode heatOf k f ?_
  intro x hx v hfx
  have := hpos x hx
  rw [hfx, Option.getD_some] at this
  exact this

theorem plant_cellD_nonneg (bf : List BoilerFuelRecord)
    (hpos : ∀ r ∈ bf, 0 ≤ (heatOf r).getD 0) (k : Key) (f : String) :
    0 ≤ (plantPivotCell bf k f).getD 0 := by
  rw [plantPivotCell]
  refine pivot_cellD_nonneg _ groupedKey groupedCode groupedVal k f ?_
  intro g hg v hfx
  rw [groupedVal] at hfx
  injection hfx with hfx
  rw [plantGroupRows, List.mem_map] at hg
  rcases hg with ⟨c, _, rfl⟩
  rw [← hfx]
  exact groupHeatSum_nonneg bf hpos c

/-- The pre-normalization total of a plant-level pivot row equals the total
heat content of the entity-period: at plant granularity the cells are sums,
so the row total is the sum over all of the entity's records. -/
theorem plant_rowTotal_eq_entityTotalHeat (bf : List BoilerFuelRecord) (k : Key) :
    rowTotal (plantPivotCols bf) (plantPivotCell bf k) = entityTotalHeat plantKey bf k := by
  rw [rowTotal]
  have h1 : ((plantPivotCols bf).map fun f => (plantPivotCell bf k f).getD 0) =
      (plantPivotCols bf).map
        fun f => ((plantFuelGroup bf k f).map fun r => (heatOf r).getD 0).sum := by
    apply List.map_congr_left
    intro f _
    exact plant_cellD bf k f
  rw [h1]
  exact sum_plantFuelGroups bf k (plantPivotCols bf)
    (pivotCols_nodup _ _ _)
    (fun r hr _ => fuelCode_mem_plantPivotCols bf hr)

/-! ## Claim theorems -/

theorem total_not_mem_boilerPivotCols (bf : List BoilerFuelRecord)
    (hnototal : ∀ r ∈ bf, r.fuel_type_code ≠ "total") :
    "total" ∉ boilerPivotCols bf := by
  intro hmem
  rw [boilerPivotCols] at hmem
  rcases mem_pivotCols_inv hmem with ⟨r, hr, hfc⟩
  exact hnototal r hr hfc

theorem total_not_mem_plantPivotCols (bf : List BoilerFuelRecord)
    (hnototal : ∀ r ∈ bf, r.fuel_type_code ≠ "total") :
    "total" ∉ plantPivotCols bf := by
  intro hmem
  rw [plantPivotCols] at hmem
  rcases mem_pivotCols_inv hmem with ⟨g, hg, hfc⟩
  rw [plantGroupRows, List.mem_map] at hg
  rcases hg with ⟨c, hc, rfl⟩
  rcases (mem_combos_iff bf c).mp hc with ⟨r, hr, hcr⟩
  apply hnototal r hr
  have h1 : (comboOf r).2.2 = c.2.2 := by rw [hcr]
  have h2 : r.fuel_type_code = c.2.2 := h1
  rw [h2]
  exact hfc

/-- C1 counterexample: a fuel literally coded "total" is overwritten by the
row sum at line 109 (after contributing its 9 MMBTU to the total of 10) and
its column is deleted at line 123, so the returned row is just
COAL: 1/10 and the shares sum to 1/10, not 1. -/
theorem C1_counterexample :
    (calculate_fuel_percentage c1cbf "boiler").2 =
      .ok [⟨bKey, [("COAL", 1/10)]⟩] ∧
    ¬ (([("COAL", (1/10 : ℚ))].map Prod.snd).sum = 1) := by
  constructor
  · norm_num +decide [calculate_fuel_percentage, finishPivot, boilerPivotKeys,
      boilerPivotCols, boilerPivotCell, pivotKeys, pivotCols, pivot_cell, pivotGroup,
      sortedFuelCols, List.insertionSort, List.orderedInsert, strle, lexLtb, heatOf,
      boilerKey, fuelCode, rowTotal, pivotIndexNames, resetIndexCollision, List.dedup, List.pwFilter,
      List.filterMap, c1cbf, Jan, bKey]
  · norm_num

/-- C1 amended: provided no record's fuel type code is the literal string
"total" (the bookkeeping column name of line 109, which would be
overwritten by the row sum and dropped), every row that
calculate_fuel_percentage returns, at both granularities, has its
fuel-share columns summing to exactly 1 (exact rational arithmetic models
the floating-point tolerance away). -/
theorem C1_amended (bf : List BoilerFuelRecord) (level : String)
    (out : List ShareRow) (row : ShareRow)
    (hnototal : ∀ r ∈ bf, r.fuel_type_code ≠ "total")
    (h : (calculate_fuel_percentage bf level).2 = .ok out) (hrow : row ∈ out) :
    (row.shares.map Prod.snd).sum = 1 := by
  rcases calculate_ok_cases bf level out h with ⟨_, rfl⟩ | ⟨_, rfl⟩
  · exact shares_sum_of_mem_finishPivot (total_not_mem_boilerPivotCols bf hnototal) hrow
  · exact shares_sum_of_mem_finishPivot (total_not_mem_plantPivotCols bf hnototal) hrow

/-- C1 witness at a concrete input without a "total"-coded fuel. -/
theorem C1_amended_witness :
    ((∀ r ∈ c1bf, r.fuel_type_code ≠ "total") ∧
      (calculate_fuel_percentage c1bf "boiler").2 =
        .ok [⟨bKey, [("COAL", 1), ("GAS", 0)]⟩] ∧
      (⟨bKey, [("COAL", 1), ("GAS", 0)]⟩ : ShareRow) ∈
        [(⟨bKey, [("COAL", 1), ("GAS", 0)]⟩ : ShareRow)]) ∧
    (((⟨bKey, [("COAL", 1), ("GAS", 0)]⟩ : ShareRow).shares.map Prod.snd).sum = 1) := by
  have hnototal : ∀ r ∈ c1bf, r.fuel_type_code ≠ "total" := by
    intro r hr
    simp only [c1bf] at hr
    rcases List.mem_cons.mp hr with rfl | hr2
    · decide
    · rcases List.mem_cons.mp hr2 with rfl | hr3
      · decide
      · cases hr3
  have h : (calculate_fuel_percentage c1bf "boiler").2 =
      .ok [⟨bKey, [("COAL", 1), ("GAS", 0)]⟩] := by
    norm_num +decide [calculate_fuel_percentage, finishPivot, boilerPivotKeys,
      boilerPivotCols, boilerPivotCell, pivotKeys, pivotCols, pivot_cell, pivotGroup,
      sortedFuelCols, List.insertionSort, List.orderedInsert, strle, lexLtb, heatOf,
      boilerKey, fuelCode, rowTotal, pivotIndexNames, resetIndexCollision, List.dedup, List.pwFilter,
      List.filterMap, c1bf, Jan, bKey]
  exact ⟨⟨hnototal, h, List.mem_cons_self _ _⟩,
    C1_amended c1bf "boiler" _ _ hnototal h (List.mem_cons_self _ _)⟩

/-- C2 counterexample: at boiler granularity, duplicate keys are averaged
rather than summed, so an entity-period whose summed heat content is zero
(1 + 1 - 2 = 0 here) can still be emitted by both stages: its pre-pivot
cells are mean(1,1) = 1 and -2, giving the nonzero total -1. -/
theorem C2_counterexample :
    entityTotalHeat boilerKey c2bf bKey = 0 ∧
    (calculate_fuel_percentage c2bf "boiler").2 =
      .ok [⟨bKey, [("COAL", -1), ("GAS", 2)]⟩] ∧
    (determine_primary_fuel c2bf (9/10) "boiler").2 = .ok [⟨bKey, "GAS"⟩] := by
  refine ⟨?_, ?_, ?_⟩
  · norm_num +decide [entityTotalHeat, heatOf, boilerKey, c2bf, Jan, bKey]
  · norm_num +decide [calculate_fuel_percentage, finishPivot, boilerPivotKeys,
      boilerPivotCols, boilerPivotCell, pivotKeys, pivotCols, pivot_cell, pivotGroup,
      sortedFuelCols, List.insertionSort, List.orderedInsert, strle, lexLtb, heatOf,
      boilerKey, fuelCode, rowTotal, pivotIndexNames, resetIndexCollision, List.dedup, List.pwFilter, List.filterMap,
      c2bf, Jan, bKey]
  · norm_num +decide [determine_primary_fuel, select_primary_fuel, idxmax, idxmaxGo,
      Except.map, calculate_fuel_percentage, finishPivot, boilerPivotKeys,
      boilerPivotCols, boilerPivotCell, pivotKeys, pivotCols, pivot_cell, pivotGroup,
      sortedFuelCols, List.insertionSort, List.orderedInsert, strle, lexLtb, heatOf,
      boilerKey, fuelCode, rowTotal, pivotIndexNames, resetIndexCollision, List.dedup, List.pwFilter, List.filterMap,
      c2bf, Jan, bKey]

/-- C2 amended: every row either stage emits has a nonzero pre-normalization
total (the code's line 115 drop); and at plant granularity — where the pivot
cell is a plain sum over the entity's records — an entity-period whose total
heat content is zero appears in neither the share table nor the classifier
output.  (At boiler granularity the pivot averages duplicate keys, so the
drop keys off the sum of the cell means rather than the sum of the records,
as the counterexample shows.) -/
theorem C2_amended (bf : List BoilerFuelRecord) (level : String) (thresh : ℚ)
    (out : List ShareRow) (pout : List PrimaryFuelRow) (k : Key) :
    ((calculate_fuel_percentage bf level).2 = .ok out →
      ∀ row ∈ out, pivotRowTotal bf level row.key ≠ 0) ∧
    (entityTotalHeat plantKey bf k = 0 →
      ((calculate_fuel_percentage bf "plant").2 = .ok out →
        ∀ row ∈ out, row.key ≠ k) ∧
      ((determine_primary_fuel bf thresh "plant").2 = .ok pout →
        ∀ p ∈ pout, p.key ≠ k)) := by
  constructor
  · intro h row hrow
    rcases calculate_ok_cases bf level out h with ⟨hlev, rfl⟩ | ⟨hlev, rfl⟩
    · subst hlev
      rw [pivotRowTotal, if_pos rfl]
      exact rowTotal_ne_zero_of_mem hrow
    · subst hlev
      rw [pivotRowTotal, if_neg (by decide : ¬ (("plant" : String) = "boiler"))]
      exact rowTotal_ne_zero_of_mem hrow
  · intro hzero
    have habsent : ∀ row : ShareRow,
        row ∈ finishPivot (plantPivotKeys bf) (plantPivotCols bf) (plantPivotCell bf) →
        row.key ≠ k := by
      intro row hrow hkey
      have hne := rowTotal_ne_zero_of_mem hrow
      rw [hkey, plant_rowTotal_eq_entityTotalHeat] at hne
      exact hne hzero
    constructor
    · intro h row hrow
      rcases calculate_ok_cases bf "plant" out h with ⟨hlev, _⟩ | ⟨_, rfl⟩
      · exact absurd hlev (by decide)
      · exact habsent row hrow
    · intro h p hp
      rcases determine_ok_inv bf thresh "plant" pout h with ⟨srows, hcalc, rfl⟩
      rcases calculate_ok_cases bf "plant" srows hcalc with ⟨hlev, _⟩ | ⟨_, rfl⟩
      · exact absurd hlev (by decide)
      · rcases List.mem_map.mp hp with ⟨row, hrow, rfl⟩
        exact habsent row hrow

/-- C2 witness at a concrete input: plant 2's heats cancel, so it is absent
from both outputs while plant 1 is present with a nonzero total. -/
theorem C2_amended_witness :
    ((calculate_fuel_percentage c2wbf "plant").2 =
      .ok [⟨pKey, [("COAL", 1), ("GAS", 0)]⟩] ∧
      entityTotalHeat plantKey c2wbf ⟨Jan, 2, none⟩ = 0 ∧
      (determine_primary_fuel c2wbf (1/2) "plant").2 = .ok [⟨pKey, "COAL"⟩]) ∧
    (pivotRowTotal c2wbf "plant" pKey ≠ 0 ∧
      pKey ≠ (⟨Jan, 2, none⟩ : Key) ∧
      (⟨pKey, "COAL"⟩ : PrimaryFuelRow).key ≠ (⟨Jan, 2, none⟩ : Key)) := by
  have hcalc : (calculate_fuel_percentage c2wbf "plant").2 =
      .ok [⟨pKey, [("COAL", 1), ("GAS", 0)]⟩] := by
    norm_num +decide [calculate_fuel_percentage, finishPivot, plantPivotKeys,
      plantPivotCols, plantPivotCell, pivotKeys, pivotCols, pivot_cell, pivotGroup,
      sortedFuelCols, List.insertionSort, List.orderedInsert, strle, lexLtb, heatOf,
      plantKey, fuelCode, groupedKey, groupedCode, groupedVal, plantGroupRows,
      comboOf, groupHeatSum, rowTotal, pivotIndexNames, resetIndexCollision, List.dedup, List.pwFilter, List.filterMap,
      c2wbf, Jan, pKey]
  have hzero : entityTotalHeat plantKey c2wbf ⟨Jan, 2, none⟩ = 0 := by
    norm_num +decide [entityTotalHeat, heatOf, plantKey, c2wbf, Jan]
  have hdet : (determine_primary_fuel c2wbf (1/2) "plant").2 = .ok [⟨pKey, "COAL"⟩] := by
    norm_num +decide [determine_primary_fuel, select_primary_fuel, idxmax, idxmaxGo,
      Except.map, calculate_fuel_percentage, finishPivot, plantPivotKeys,
      plantPivotCols, plantPivotCell, pivotKeys, pivotCols, pivot_cell, pivotGroup,
      sortedFuelCols, List.insertionSort, List.orderedInsert, strle, lexLtb, heatOf,
      plantKey, fuelCode, groupedKey, groupedCode, groupedVal, plantGroupRows,
      comboOf, groupHeatSum, rowTotal, pivotIndexNames, resetIndexCollision, List.dedup, List.pwFilter, List.filterMap,
      c2wbf, Jan, pKey]
  refine ⟨⟨hcalc, hzero, hdet⟩, ?_, ?_, ?_⟩
  · exact (C2_amended c2wbf "plant" (1/2) [⟨pKey, [("COAL", 1), ("GAS", 0)]⟩]
      [⟨pKey, "COAL"⟩] ⟨Jan, 2, none⟩).1 hcalc _ (List.mem_cons_self _ _)
  · exact ((C2_amended c2wbf "plant" (1/2) [⟨pKey, [("COAL", 1), ("GAS", 0)]⟩]
      [⟨pKey, "COAL"⟩] ⟨Jan, 2, none⟩).2 hzero).1 hcalc _ (List.mem_cons_self _ _)
  · exact ((C2_amended c2wbf "plant" (1/2) [⟨pKey, [("COAL", 1), ("GAS", 0)]⟩]
      [⟨pKey, "COAL"⟩] ⟨Jan, 2, none⟩).2 hzero).2 hdet _ (List.mem_cons_self _ _)

/-- C6 counterexample: with a negative consumed-units record the emitted
shares are -1 and 2, outside the unit interval, so the claim's unconditional
interval bound is false. -/
theorem C6_counterexample :
    (calculate_fuel_percentage c6bf "plant").2 =
      .ok [⟨pKey, [("COAL", -1), ("GAS", 2)]⟩] ∧ ¬ ((0 : ℚ) ≤ -1) := by
  refine ⟨?_, by norm_num⟩
  norm_num +decide [calculate_fuel_percentage, finishPivot, plantPivotKeys,
    plantPivotCols, plantPivotCell, pivotKeys, pivotCols, pivot_cell, pivotGroup,
    sortedFuelCols, List.insertionSort, List.orderedInsert, strle, lexLtb, heatOf,
    plantKey, fuelCode, groupedKey, groupedCode, groupedVal, plantGroupRows,
    comboOf, groupHeatSum, rowTotal, pivotIndexNames, resetIndexCollision, List.dedup, List.pwFilter, List.filterMap,
    c6bf, Jan, pKey]

/-- C6 amended: provided every record's heat contribution
(consumed units times heat per unit) is nonnegative, every fuel-share cell
either stage emits lies in the closed unit interval. -/
theorem C6_amended (bf : List BoilerFuelRecord) (level : String)
    (out : List ShareRow)
    (hpos : ∀ r ∈ bf, 0 ≤ (heatOf r).getD 0)
    (h : (calculate_fuel_percentage bf level).2 = .ok out) :
    ∀ row ∈ out, ∀ p ∈ row.shares, 0 ≤ p.2 ∧ p.2 ≤ 1 := by
  intro row hrow p hp
  rcases calculate_ok_cases bf level out h with ⟨_, rfl⟩ | ⟨_, rfl⟩
  · exact share_bounds_of_mem_finishPivot
      (fun k f => boiler_cellD_nonneg bf hpos k f) hrow p hp
  · exact share_bounds_of_mem_finishPivot
      (fun k f => plant_cellD_nonneg bf hpos k f) hrow p hp

/-- C6 witness at a concrete input. -/
theorem C6_amended_witness :
    ((∀ r ∈ c6wbf, 0 ≤ (heatOf r).getD 0) ∧
      (calculate_fuel_percentage c6wbf "boiler").2 = .ok [⟨bKey, [("COAL", 1)]⟩]) ∧
    (0 ≤ (1 : ℚ) ∧ (1 : ℚ) ≤ 1) := by
  have hpos : ∀ r ∈ c6wbf, 0 ≤ (heatOf r).getD 0 := by
    intro r hr
    simp only [c6wbf] at hr
    rcases List.mem_cons.mp hr with rfl | hr2
    · norm_num [heatOf]
    · cases hr2
  have h : (calculate_fuel_percentage c6wbf "boiler").2 =
      .ok [⟨bKey, [("COAL", 1)]⟩] := by
    norm_num +decide [calculate_fuel_percentage, finishPivot, boilerPivotKeys,
      boilerPivotCols, boilerPivotCell, pivotKeys, pivotCols, pivot_cell, pivotGroup,
      sortedFuelCols, List.insertionSort, List.orderedInsert, strle, lexLtb, heatOf,
      boilerKey, fuelCode, rowTotal, pivotIndexNames, resetIndexCollision, List.dedup, List.pwFilter, List.filterMap,
      c6wbf, Jan, bKey]
  exact ⟨⟨hpos, h⟩,
    C6_amended c6wbf "boiler" _ hpos h _ (List.mem_cons_self _ _)
      ("COAL", 1) (List.mem_cons_self _ _)⟩

/-- C8 counterexample: two records share the boiler-level key (heats 1 and
3); the pivot neither fails nor picks one of them — the cell is their mean 2
and a well-formed table is returned. -/
theorem C8_counterexample :
    boilerPivotCell c8bf bKey "COAL" = some 2 ∧
    (2 : ℚ) ≠ 1 ∧ (2 : ℚ) ≠ 3 ∧
    (calculate_fuel_percentage c8bf "boiler").2 =
      .ok [⟨bKey, [("COAL", 1/2), ("GAS", 1/2)]⟩] := by
  refine ⟨?_, by norm_num, by norm_num, ?_⟩
  · norm_num +decide [boilerPivotCell, pivot_cell, pivotGroup, heatOf, boilerKey,
      fuelCode, List.filterMap, c8bf, Jan, bKey]
  · norm_num +decide [calculate_fuel_percentage, finishPivot, boilerPivotKeys,
      boilerPivotCols, boilerPivotCell, pivotKeys, pivotCols, pivot_cell, pivotGroup,
      sortedFuelCols, List.insertionSort, List.orderedInsert, strle, lexLtb, heatOf,
      boilerKey, fuelCode, rowTotal, pivotIndexNames, resetIndexCollision, List.dedup, List.pwFilter, List.filterMap,
      c8bf, Jan, bKey]

/-- C8 amended: at boiler granularity a duplicate key neither fails nor has
one record picked: the cell is the deterministic arithmetic mean of the
duplicates' heat values (the pandas pivot_table default aggfunc). -/
theorem C8_amended (bf : List BoilerFuelRecord) (k : Key) (f : String)
    (hne : pivotGroup bf boilerKey fuelCode heatOf k f ≠ []) :
    ∃ c, boilerPivotCell bf k f = some c ∧
      c * (pivotGroup bf boilerKey fuelCode heatOf k f).length =
        (pivotGroup bf boilerKey fuelCode heatOf k f).sum := by
  rw [boilerPivotCell, pivot_cell, if_neg hne]
  refine ⟨_, rfl, ?_⟩
  rw [div_mul_cancel₀]
  rw [Ne, Nat.cast_eq_zero, List.length_eq_zero]
  exact hne

/-- C8 witness at the concrete duplicate input. -/
theorem C8_amended_witness :
    pivotGroup c8bf boilerKey fuelCode heatOf bKey "COAL" ≠ [] ∧
    ∃ c, boilerPivotCell c8bf bKey "COAL" = some c ∧
      c * (pivotGroup c8bf boilerKey fuelCode heatOf bKey "COAL").length =
        (pivotGroup c8bf boilerKey fuelCode heatOf bKey "COAL").sum := by
  have hne : pivotGroup c8bf boilerKey fuelCode heatOf bKey "COAL" ≠ [] := by
    norm_num +decide [pivotGroup, heatOf, boilerKey, fuelCode, List.filterMap,
      c8bf, Jan, bKey]
  exact ⟨hne, C8_amended c8bf bKey "COAL" hne⟩

/-- C3 counterexample: a fuel type code that is literally the string
"unknown" collides with the fillna sentinel: the row's only share is 1 ≥
the threshold 1/2, yet primary_fuel is "unknown", refuting the claimed
"exactly when every share is below the threshold". -/
theorem C3_counterexample :
    (calculate_fuel_percentage c3bf "boiler").2 = .ok [⟨bKey, [("unknown", 1)]⟩] ∧
    (determine_primary_fuel c3bf (1/2) "boiler").2 = .ok [⟨bKey, "unknown"⟩] ∧
    (1/2 : ℚ) ≤ 1 := by
  refine ⟨?_, ?_, by norm_num⟩
  · norm_num +decide [calculate_fuel_percentage, finishPivot, boilerPivotKeys,
      boilerPivotCols, boilerPivotCell, pivotKeys, pivotCols, pivot_cell, pivotGroup,
      sortedFuelCols, List.insertionSort, List.orderedInsert, strle, lexLtb, heatOf,
      boilerKey, fuelCode, rowTotal, pivotIndexNames, resetIndexCollision, List.dedup, List.pwFilter, List.filterMap,
      c3bf, Jan, bKey]
  · norm_num +decide [determine_primary_fuel, select_primary_fuel, idxmax, idxmaxGo,
      Except.map, calculate_fuel_percentage, finishPivot, boilerPivotKeys,
      boilerPivotCols, boilerPivotCell, pivotKeys, pivotCols, pivot_cell, pivotGroup,
      sortedFuelCols, List.insertionSort, List.orderedInsert, strle, lexLtb, heatOf,
      boilerKey, fuelCode, rowTotal, pivotIndexNames, resetIndexCollision, List.dedup, List.pwFilter, List.filterMap,
      c3bf, Jan, bKey]

/-- C3 amended: provided no fuel type code in the row is the literal string
"unknown", each classifier row has primary_fuel equal to "unknown" exactly
when every share is strictly below the threshold, and otherwise equal to a
fuel present in the row whose share is at or above the threshold and
maximal among the qualifying shares. -/
theorem C3_amended (bf : List BoilerFuelRecord) (level : String) (thresh : ℚ)
    (srows : List ShareRow)
    (h : (calculate_fuel_percentage bf level).2 = .ok srows)
    (hnames : ∀ row ∈ srows, ∀ p ∈ row.shares, p.1 ≠ "unknown") :
    (determine_primary_fuel bf thresh level).2 =
      .ok (srows.map fun row => ⟨row.key, select_primary_fuel row.shares thresh⟩) ∧
    ∀ row ∈ srows,
      (select_primary_fuel row.shares thresh = "unknown" ↔
        ∀ p ∈ row.shares, p.2 < thresh) ∧
      (select_primary_fuel row.shares thresh ≠ "unknown" →
        ∃ v, (select_primary_fuel row.shares thresh, v) ∈ row.shares ∧ thresh ≤ v ∧
          ∀ p ∈ row.shares, thresh ≤ p.2 → p.2 ≤ v) := by
  refine ⟨determine_eq bf thresh level srows h, ?_⟩
  intro row hrow
  refine ⟨select_eq_unknown_iff _ _ (hnames row hrow), ?_⟩
  intro hne
  exact select_spec _ _ _ rfl hne

/-- C3 witness at a concrete 60/40 input with threshold 1/2. -/
theorem C3_amended_witness :
    ((calculate_fuel_percentage c3wbf "boiler").2 =
        .ok [⟨bKey, [("COAL", 3/5), ("GAS", 2/5)]⟩] ∧
      (∀ row ∈ [(⟨bKey, [("COAL", 3/5), ("GAS", 2/5)]⟩ : ShareRow)],
        ∀ p ∈ row.shares, p.1 ≠ "unknown")) ∧
    ((determine_primary_fuel c3wbf (1/2) "boiler").2 =
        .ok ([(⟨bKey, [("COAL", 3/5), ("GAS", 2/5)]⟩ : ShareRow)].map
          fun row => ⟨row.key, select_primary_fuel row.shares (1/2)⟩) ∧
      ∀ row ∈ [(⟨bKey, [("COAL", 3/5), ("GAS", 2/5)]⟩ : ShareRow)],
        (select_primary_fuel row.shares (1/2) = "unknown" ↔
          ∀ p ∈ row.shares, p.2 < 1/2) ∧
        (select_primary_fuel row.shares (1/2) ≠ "unknown" →
          ∃ v, (select_primary_fuel row.shares (1/2), v) ∈ row.shares ∧
            (1/2 : ℚ) ≤ v ∧ ∀ p ∈ row.shares, (1/2 : ℚ) ≤ p.2 → p.2 ≤ v)) := by
  have h : (calculate_fuel_percentage c3wbf "boiler").2 =
      .ok [⟨bKey, [("COAL", 3/5), ("GAS", 2/5)]⟩] := by
    norm_num +decide [calculate_fuel_percentage, finishPivot, boilerPivotKeys,
      boilerPivotCols, boilerPivotCell, pivotKeys, pivotCols, pivot_cell, pivotGroup,
      sortedFuelCols, List.insertionSort, List.orderedInsert, strle, lexLtb, heatOf,
      boilerKey, fuelCode, rowTotal, pivotIndexNames, resetIndexCollision, List.dedup, List.pwFilter, List.filterMap,
      c3wbf, Jan, bKey]
  have hnames : ∀ row ∈ [(⟨bKey, [("COAL", 3/5), ("GAS", 2/5)]⟩ : ShareRow)],
      ∀ p ∈ row.shares, p.1 ≠ "unknown" := by
    intro row hrow p hp
    rcases List.mem_cons.mp hrow with rfl | hrow2
    · rcases List.mem_cons.mp hp with rfl | hp2
      · decide
      · rcases List.mem_cons.mp hp2 with rfl | hp3
        · decide
        · cases hp3
    · cases hrow2
  exact ⟨⟨h, hnames⟩, C3_amended c3wbf "boiler" (1/2) _ h hnames⟩

/-- C4: on every row of the share table (whose fuel columns pandas pivoting
materializes in ascending lexicographic order), when a qualifying maximal
share is attained and f is the lexicographically least fuel among the
qualifying shares tied at that maximum, the classifier selects f; idxmax
takes the first column in order, which under the sorted columns is exactly
the lexicographically first tied maximum. -/
theorem C4_tie_break_lexicographic (bf : List BoilerFuelRecord) (level : String)
    (thresh : ℚ) (srows : List ShareRow) (row : ShareRow) (f : String) (m : ℚ)
    (h : (calculate_fuel_percentage bf level).2 = .ok srows) (hrow : row ∈ srows)
    (hmem : (f, m) ∈ row.shares) (hth : thresh ≤ m)
    (hmax : ∀ p ∈ row.shares, thresh ≤ p.2 → p.2 ≤ m)
    (hlex : ∀ p ∈ row.shares, thresh ≤ p.2 → p.2 = m → f ≤ p.1) :
    select_primary_fuel row.shares thresh = f ∧
    (determine_primary_fuel bf thresh level).2 =
      .ok (srows.map fun r => ⟨r.key, select_primary_fuel r.shares thresh⟩) := by
  refine ⟨?_, determine_eq bf thresh level srows h⟩
  have hsorted : row.shares.Pairwise (fun a b : String × ℚ => a.1 < b.1) := by
    rcases calculate_ok_cases bf level srows h with ⟨_, rfl⟩ | ⟨_, rfl⟩
    · have hnames := shares_names_of_mem_finishPivot hrow
      rw [boilerPivotCols] at hnames
      have hcols : ((pivotCols bf fuelCode heatOf).filter
          fun f => f ≠ "total").Pairwise (· < ·) :=
        List.Pairwise.sublist (List.filter_sublist _)
          (pivotCols_sorted_lt bf fuelCode heatOf)
      rw [← hnames] at hcols
      exact List.pairwise_map.mp hcols
    · have hnames := shares_names_of_mem_finishPivot hrow
      rw [plantPivotCols] at hnames
      have hcols : ((pivotCols (plantGroupRows bf) groupedCode groupedVal).filter
          fun f => f ≠ "total").Pairwise (· < ·) :=
        List.Pairwise.sublist (List.filter_sublist _)
          (pivotCols_sorted_lt (plantGroupRows bf) groupedCode groupedVal)
      rw [← hnames] at hcols
      exact List.pairwise_map.mp hcols
  exact select_lex_first row.shares thresh hsorted f m hmem hth hmax hlex

/-- C4 witness: gas and coal exactly tied at share 1/2 with threshold 1/4;
the classifier selects COAL, the lexicographically first of the tied pair. -/
theorem C4_tie_break_lexicographic_witness :
    ((calculate_fuel_percentage c4bf "boiler").2 =
        .ok [⟨bKey, [("COAL", 1/2), ("GAS", 1/2)]⟩] ∧
      ("COAL", (1/2 : ℚ)) ∈ [("COAL", (1/2 : ℚ)), ("GAS", (1/2 : ℚ))] ∧
      (1/4 : ℚ) ≤ 1/2 ∧
      (∀ p ∈ [("COAL", (1/2 : ℚ)), ("GAS", (1/2 : ℚ))],
        (1/4 : ℚ) ≤ p.2 → p.2 ≤ 1/2) ∧
      (∀ p ∈ [("COAL", (1/2 : ℚ)), ("GAS", (1/2 : ℚ))],
        (1/4 : ℚ) ≤ p.2 → p.2 = 1/2 → "COAL" ≤ p.1)) ∧
    (select_primary_fuel [("COAL", (1/2 : ℚ)), ("GAS", (1/2 : ℚ))] (1/4) = "COAL" ∧
      (determine_primary_fuel c4bf (1/4) "boiler").2 =
        .ok ([(⟨bKey, [("COAL", 1/2), ("GAS", 1/2)]⟩ : ShareRow)].map
          fun r => ⟨r.key, select_primary_fuel r.shares (1/4)⟩)) := by
  have h : (calculate_fuel_percentage c4bf "boiler").2 =
      .ok [⟨bKey, [("COAL", 1/2), ("GAS", 1/2)]⟩] := by
    norm_num +decide [calculate_fuel_percentage, finishPivot, boilerPivotKeys,
      boilerPivotCols, boilerPivotCell, pivotKeys, pivotCols, pivot_cell, pivotGroup,
      sortedFuelCols, List.insertionSort, List.orderedInsert, strle, lexLtb, heatOf,
      boilerKey, fuelCode, rowTotal, pivotIndexNames, resetIndexCollision, List.dedup, List.pwFilter, List.filterMap,
      c4bf, Jan, bKey]
  have hmem : ("COAL", (1/2 : ℚ)) ∈ [("COAL", (1/2 : ℚ)), ("GAS", (1/2 : ℚ))] :=
    List.mem_cons_self _ _
  have hth : (1/4 : ℚ) ≤ 1/2 := by norm_num
  have hmax : ∀ p ∈ [("COAL", (1/2 : ℚ)), ("GAS", (1/2 : ℚ))],
      (1/4 : ℚ) ≤ p.2 → p.2 ≤ 1/2 := by
    intro p hp
    rcases List.mem_cons.mp hp with rfl | hp2
    · norm_num
    · rcases List.mem_cons.mp hp2 with rfl | hp3
      · norm_num
      · cases hp3
  have hlex : ∀ p ∈ [("COAL", (1/2 : ℚ)), ("GAS", (1/2 : ℚ))],
      (1/4 : ℚ) ≤ p.2 → p.2 = 1/2 → "COAL" ≤ p.1 := by
    intro p hp
    rcases List.mem_cons.mp hp with rfl | hp2
    · intro _ _
      exact le_refl _
    · rcases List.mem_cons.mp hp2 with rfl | hp3
      · intro _ _
        exact (strle_iff_le "COAL" "GAS").mp (by decide)
      · cases hp3
  exact ⟨⟨h, hmem, hth, hmax, hlex⟩,
    C4_tie_break_lexicographic c4bf "boiler" (1/4) _ _ "COAL" (1/2) h
      (List.mem_cons_self _ _) hmem hth hmax hlex⟩

/-- C7: at plant granularity the heat contents are first summed by
(plant, period, fuel type) across boilers, so each pivot cell with at least
one contributing record equals the total heat over all of that plant's
matching records. -/
theorem C7_plant_cell_sums_boilers (bf : List BoilerFuelRecord) (k : Key)
    (f : String) (hne : plantFuelGroup bf k f ≠ []) :
    plantPivotCell bf k f =
      some (((plantFuelGroup bf k f).map fun r => (heatOf r).getD 0).sum) :=
  plantPivotCell_eq_sum bf k f hne

/-- C7 witness: two boilers of plant 1 contribute 6 and 4 MMBTU of coal;
the plant-level cell is 10. -/
theorem C7_plant_cell_sums_boilers_witness :
    plantFuelGroup c7bf pKey "COAL" ≠ [] ∧
    plantPivotCell c7bf pKey "COAL" = some 10 := by
  have hne : plantFuelGroup c7bf pKey "COAL" ≠ [] := by
    norm_num +decide [plantFuelGroup, plantKey, fuelCode, c7bf, Jan, pKey]
  refine ⟨hne, (C7_plant_cell_sums_boilers c7bf pKey "COAL" hne).trans ?_⟩
  norm_num +decide [plantFuelGroup, plantKey, fuelCode, heatOf, c7bf, Jan, pKey]

/-- C5: the claim says calculate_fuel_percentage raises InvalidRecordError
on a missing required field.  The code has no such validation: the record
with the missing fuel_mmbtu_per_unit gets a NaN heat content, the NaN is
silently skipped by the pivot aggregation (its all-NaN gas column is even
dropped), and a well-formed share table is returned instead of an error. -/
theorem C5_missing_field_no_error :
    (calculate_fuel_percentage c5bf "boiler").2 = .ok [⟨bKey, [("COAL", 1)]⟩] := by
  norm_num +decide [calculate_fuel_percentage, finishPivot, boilerPivotKeys,
    boilerPivotCols, boilerPivotCell, pivotKeys, pivotCols, pivot_cell, pivotGroup,
    sortedFuelCols, List.insertionSort, List.orderedInsert, strle, lexLtb, heatOf,
    boilerKey, fuelCode, rowTotal, pivotIndexNames, resetIndexCollision, List.dedup, List.pwFilter, List.filterMap, c5bf, Jan, bKey]

/-- C9: the claim says both stages leave the caller's input table unchanged.
The assignment at line 72 adds a fuel_consumed_mmbtu column to the caller's
frame in place, in both calculate_fuel_percentage and (through its call)
determine_primary_fuel: the caller-visible table after the call carries the
extra populated column. -/
theorem C9_input_table_mutated :
    (calculate_fuel_percentage c9bf "boiler").1 =
      [⟨⟨1, "1", Jan, "COAL", some 2, some 3⟩, some 6⟩] ∧
    (determine_primary_fuel c9bf (9/10) "boiler").1 =
      [⟨⟨1, "1", Jan, "COAL", some 2, some 3⟩, some 6⟩] ∧
    "fuel_consumed_mmbtu" ∉ inputTableColumns ∧
    "fuel_consumed_mmbtu" ∈ mutatedTableColumns := by
  refine ⟨?_, ?_, by decide, by decide⟩
  · norm_num [calculate_fuel_percentage, heatOf, c9bf, Jan]
  · norm_num [determine_primary_fuel, calculate_fuel_percentage, heatOf, c9bf, Jan]

/-- C10: for any level other than "boiler" and "plant" both functions raise
(the unbound-local NameError of line 109) instead of returning a table. -/
theorem C10_invalid_level_errors (bf : List BoilerFuelRecord) (thresh : ℚ)
    (level : String) (h1 : level ≠ "boiler") (h2 : level ≠ "plant") :
    (calculate_fuel_percentage bf level).2 = .error .nameError ∧
    (determine_primary_fuel bf thresh level).2 = .error .nameError :=
  ⟨calculate_other bf level h1 h2,
    determine_error bf thresh level (calculate_other bf level h1 h2)⟩

/-- C10 witness at a concrete unrecognized level. -/
theorem C10_invalid_level_errors_witness :
    (("generator" : String) ≠ "boiler" ∧ ("generator" : String) ≠ "plant") ∧
    ((calculate_fuel_percentage [] "generator").2 = .error .nameError ∧
      (determine_primary_fuel [] (9/10) "generator").2 = .error .nameError) :=
  ⟨⟨by decide, by decide⟩,
    C10_invalid_level_errors [] (9/10) "generator" (by decide) (by decide)⟩

end Egrid
